import Mathlib

/-!
Verification development for the radiation boundary-value module of the
repository (`src/bvals/cc/rad/bvals_rad.cpp`): the angular quadrature grid
construction, the unit-direction table and the reflecting/polar boundary
remap builder inside `RadBoundaryVariable::RadBoundaryVariable`.

The angular resolution `nzeta`/`npsi` and the angular ghost width
`NGHOST_RAD` (declared outside `src/`) are kept as parameters `nz`, `np`,
`ng`.  Array contents are modelled as functions from the padded integer
index to `ℝ`; machine floating point is modelled by exact real arithmetic,
`std::acos` by `Real.arccos` and `std::atan2` by its C-standard case
analysis (`atan2` below).  The external `Coordinates::Tetrad` provider is
modelled by passing the produced matrices as explicit `Fin 4 → Fin 4 → ℝ`
arguments.
-/

namespace AthenaRad

noncomputable section

/-- Interior polar faces: the net content of `zetaf(l)` for
`zs ≤ l ≤ ze+1` after lines 68-80 of bvals_rad.cpp.  `zetaf(zs) = 0` and
`zetaf(ze+1) = π` are set exactly (lines 70-71); the loop at line 72 sets
the northern faces `zs+1 ≤ l ≤ (nzeta-1)/2 + NGHOST_RAD` to
`acos(1 + (l - NGHOST_RAD)*dczeta)` with `dczeta = -2.0/nzeta` (line 69)
and mirrors them onto the southern faces
`zetaf(ze+NGHOST_RAD+1-l) = π - zeta` (line 76, rewritten here in terms of
the southern index `j = nzeta+2·NGHOST_RAD-l`); if `nzeta` is even the
equator face `nzeta/2 + NGHOST_RAD` is set to `π/2` exactly (lines 78-80,
an index no loop iteration touches). -/
def zetafI (nz ng : ℕ) (l : ℤ) : ℝ :=
  if l = (ng : ℤ) then 0
  else if l = (nz : ℤ) + ng then Real.pi
  else if nz % 2 = 0 ∧ l = (nz : ℤ) / 2 + ng then Real.pi / 2
  else if l ≤ ((nz : ℤ) - 1) / 2 + ng then
    Real.arccos (1 + ((l : ℝ) - (ng : ℝ)) * (-2 / (nz : ℝ)))
  else
    Real.pi - Real.arccos (1 + (((nz : ℝ) + 2 * (ng : ℝ) - (l : ℝ)) - (ng : ℝ)) * (-2 / (nz : ℝ)))

/-- Full padded polar face array, lines 68-84: ghost faces on the northern
end are `zetaf(l) = -zetaf(2·NGHOST_RAD - l)` and on the southern end
`zetaf(j) = 2π - zetaf(2·nzeta + 2·NGHOST_RAD - j)` (line 83 with
`j = ze+NGHOST_RAD+1-l`, so `nzeta+l = 2·nzeta+2·NGHOST_RAD-j`). -/
def zetaf (nz ng : ℕ) (l : ℤ) : ℝ :=
  if l < (ng : ℤ) then -zetafI nz ng (2 * ng - l)
  else if (nz : ℤ) + ng < l then 2 * Real.pi - zetafI nz ng (2 * nz + 2 * ng - l)
  else zetafI nz ng l

/-- Volume-averaged polar centers, lines 85-90. -/
def zetav (nz ng : ℕ) (l : ℤ) : ℝ :=
  (zetaf nz ng (l + 1) * Real.cos (zetaf nz ng (l + 1)) - Real.sin (zetaf nz ng (l + 1))
      - zetaf nz ng l * Real.cos (zetaf nz ng l) + Real.sin (zetaf nz ng l))
    / (Real.cos (zetaf nz ng (l + 1)) - Real.cos (zetaf nz ng l))

/-- Polar face spacings, line 89. -/
def dzetaf (nz ng : ℕ) (l : ℤ) : ℝ := zetaf nz ng (l + 1) - zetaf nz ng l

/-- Interior azimuthal faces, lines 92-98: origin and full angle set
exactly, the active faces equally spaced: `psif(m) = (m - NGHOST_RAD)*dpsi`
with `dpsi = 2π/npsi`. -/
def psifI (np ng : ℕ) (m : ℤ) : ℝ :=
  if m = (ng : ℤ) then 0
  else if m = (np : ℤ) + ng then 2 * Real.pi
  else ((m : ℝ) - (ng : ℝ)) * (2 * Real.pi / (np : ℝ))

/-- Full padded azimuthal face array, lines 92-102: beginning ghost faces
`psif(m) = psif(npsi+m) - 2π` (line 100) and end ghost faces
`psif(j) = psif(j-npsi) + 2π` (line 101 with `j = pe+NGHOST_RAD+1-m`, so
`2·NGHOST_RAD-m = j-npsi`). -/
def psif (np ng : ℕ) (m : ℤ) : ℝ :=
  if m < (ng : ℤ) then psifI np ng (np + m) - 2 * Real.pi
  else if (np : ℤ) + ng < m then psifI np ng (m - np) + 2 * Real.pi
  else psifI np ng m

/-- Azimuthal centers, line 104: plain midpoints. -/
def psiv (np ng : ℕ) (m : ℤ) : ℝ := 0.5 * (psif np ng m + psif np ng (m + 1))

/-- Azimuthal face spacings, line 105. -/
def dpsif (np ng : ℕ) (m : ℤ) : ℝ := psif np ng (m + 1) - psif np ng m

/-- Modelled from the spec: `AngleInd` is declared in `bvals_rad.hpp`,
which is not under `src/`.  §4.2 of the spec gives
`AngleIndex(l, m) = (m − m_min) + (l − l_min) · psi_extent`, a total
bijection from the padded 2-D index range onto `[0, nang)`; in the padded
indexing used throughout, `l_min = m_min = 0` and
`psi_extent = npsi + 2·NGHOST_RAD`. -/
def AngleInd (np ng : ℕ) (l m : ℤ) : ℤ := m + l * ((np : ℤ) + 2 * ng)

/-- Total angle-bin count `nang = (nzeta+2·NGHOST_RAD)·(npsi+2·NGHOST_RAD)`
(line 40). -/
def nang (nz np ng : ℕ) : ℕ := (nz + 2 * ng) * (np + 2 * ng)

/-- Unit normal components in the orthonormal frame, lines 119-131:
`nh_g(·, AngleInd(l,m)) = (1, sin ζᵥ cos ψᵥ, sin ζᵥ sin ψᵥ, cos ζᵥ)`.
The `nzeta == 1` rescaling at lines 126-129 is written `nh_g(1,l,m) *= …`,
a three-index access into the two-dimensional `(4, nang)` allocation of
line 116; under the container's row-major linearization (`athenaIdx3`
below) that write lands beyond the allocation for every padded `l ≥ 0` and
never touches the stored `nh_g(1,lm)` or `nh_g(2,lm)`, so the cached table
is the unscaled direction for every `nzeta` (see the C4 theorem). -/
def nhatG (nz np ng : ℕ) (l m : ℤ) : Fin 4 → ℝ := fun i =>
  if i.val = 0 then 1
  else if i.val = 1 then Real.sin (zetav nz ng l) * Real.cos (psiv np ng m)
  else if i.val = 2 then Real.sin (zetav nz ng l) * Real.sin (psiv np ng m)
  else Real.cos (zetav nz ng l)

/-- `n_g[n] = Σ_p e_g(p,n) · nh_g(p,lm)` (lines 149-154). -/
def nVec (eg : Fin 4 → Fin 4 → ℝ) (nh : Fin 4 → ℝ) : Fin 4 → ℝ :=
  fun n => ∑ p : Fin 4, eg p n * nh p

/-- The reflection sign flip `n_a[axis] *= -1.0` (line 159 for x¹, 289 for
x², 419 for x³, and their outer-face copies). -/
def flipA (ax : Fin 4) (n : Fin 4 → ℝ) : Fin 4 → ℝ :=
  fun i => if i = ax then -n i else n i

/-- The polar flip `n_a[2] *= -1.0; n_a[3] *= -1.0` (lines 550-551 and
610-611). -/
def flipPolar (n : Fin 4 → ℝ) : Fin 4 → ℝ :=
  fun i => if i.val = 2 ∨ i.val = 3 then -n i else n i

/-- `nh_a[n] = Σ_p e_cov_a(n,p) · n_a[p]` (lines 160-165). -/
def nhatA (ecova : Fin 4 → Fin 4 → ℝ) (na : Fin 4 → ℝ) : Fin 4 → ℝ :=
  fun n => ∑ p : Fin 4, ecova n p * na p

/-- `std::atan2(y, x)` from `<cmath>`, modelled by its C-standard case
analysis (the code never passes NaN-producing arguments in the real-number
model; `atan2(0,0) = 0` as for `+0, +0`). -/
def atan2 (y x : ℝ) : ℝ :=
  if 0 < x then Real.arctan (y / x)
  else if x < 0 ∧ 0 ≤ y then Real.arctan (y / x) + Real.pi
  else if x < 0 then Real.arctan (y / x) - Real.pi
  else if 0 < y then Real.pi / 2
  else if y < 0 then -(Real.pi / 2)
  else 0

/-- `nh_a[0] *= -1.0; zeta_a = std::acos(nh_a[3]/nh_a[0])`
(lines 166-167), as a total real function: faithful whenever the quotient
lies in `[-1, 1]` (where `std::acos` equals `Real.arccos`); the IEEE
NaN path for a vanishing denominator or an out-of-domain quotient is
modelled separately by `zetaOfC` below. -/
def zetaOf (nh : Fin 4 → ℝ) : ℝ := Real.arccos (nh 3 / -nh 0)

/-- `psi_a = std::atan2(nh_a[2], nh_a[1]); psi_a += psi_a < 0.0 ? 2π : 0`
(lines 168-169); `nh_a[1]`, `nh_a[2]` are unaffected by the sign flip of
`nh_a[0]`. -/
def psiOf (nh : Fin 4 → ℝ) : ℝ :=
  if atan2 (nh 2) (nh 1) < 0 then atan2 (nh 2) (nh 1) + 2 * Real.pi
  else atan2 (nh 2) (nh 1)

open Classical in
/-- The bracket-search loop
`for (i = lo; i <= lo+n-1; ++i) { if (f(i) > x) break; }`
(lines 170-181 and their per-face copies): the first index `i ∈ [lo, lo+n)`
with `f i > x`, and the fall-through value `lo + n` when the loop exhausts
its range without a break. -/
def scanBreak (f : ℤ → ℝ) (x : ℝ) : ℤ → ℕ → ℤ
  | lo, 0 => lo
  | lo, n + 1 => if x < f lo then lo else scanBreak f x (lo + 1) n

/-- One four-point bilinear remap record: the four target angle-bin indices
(lines 182-185) and the four interpolation weights (lines 188-191). -/
structure RemapEntry where
  ind0 : ℤ
  ind1 : ℤ
  ind2 : ℤ
  ind3 : ℤ
  frac0 : ℝ
  frac1 : ℝ
  frac2 : ℝ
  frac3 : ℝ

/-- The recovered polar angle `zeta_a` of one reflection-table iteration:
the six face blocks (lines 133-521) share this body and differ only in the
flipped component `ax` and in which tetrads are passed. -/
def reflectZeta (nz np ng : ℕ) (eg ecova : Fin 4 → Fin 4 → ℝ) (ax : Fin 4) (l m : ℤ) : ℝ :=
  zetaOf (nhatA ecova (flipA ax (nVec eg (nhatG nz np ng l m))))

/-- The recovered azimuthal angle `psi_a` of one reflection-table
iteration. -/
def reflectPsi (nz np ng : ℕ) (eg ecova : Fin 4 → Fin 4 → ℝ) (ax : Fin 4) (l m : ℤ) : ℝ :=
  psiOf (nhatA ecova (flipA ax (nVec eg (nhatG nz np ng l m))))

/-- The break index `l_a` of the polar bracket search, lines 170-175:
scanned from `zs-1 = NGHOST_RAD-1` to `ze+1 = nzeta+NGHOST_RAD`
(`nzeta+2` candidate indices). -/
def reflectLa (nz np ng : ℕ) (eg ecova : Fin 4 → Fin 4 → ℝ) (ax : Fin 4) (l m : ℤ) : ℤ :=
  scanBreak (zetav nz ng) (reflectZeta nz np ng eg ecova ax l m) ((ng : ℤ) - 1) (nz + 2)

/-- The break index `m_a` of the azimuthal bracket search, lines 176-181:
scanned from `ps-1` to `pe+1` (`npsi+2` candidate indices). -/
def reflectMa (nz np ng : ℕ) (eg ecova : Fin 4 → Fin 4 → ℝ) (ax : Fin 4) (l m : ℤ) : ℤ :=
  scanBreak (psiv np ng) (reflectPsi nz np ng eg ecova ax l m) ((ng : ℤ) - 1) (np + 2)

/-- `frac_l = (zeta_a - zetav(l_a-1)) / dzetaf(l_a-1)` (line 186). -/
def reflectFracL (nz np ng : ℕ) (eg ecova : Fin 4 → Fin 4 → ℝ) (ax : Fin 4) (l m : ℤ) : ℝ :=
  (reflectZeta nz np ng eg ecova ax l m - zetav nz ng (reflectLa nz np ng eg ecova ax l m - 1))
    / dzetaf nz ng (reflectLa nz np ng eg ecova ax l m - 1)

/-- `frac_m = (psi_a - psiv(m_a-1)) / dpsif(m_a-1)` (line 187). -/
def reflectFracM (nz np ng : ℕ) (eg ecova : Fin 4 → Fin 4 → ℝ) (ax : Fin 4) (l m : ℤ) : ℝ :=
  (reflectPsi nz np ng eg ecova ax l m - psiv np ng (reflectMa nz np ng eg ecova ax l m - 1))
    / dpsif np ng (reflectMa nz np ng eg ecova ax l m - 1)

/-- One emitted entry of a reflection table (lines 148-192 and the five
analogous blocks), for ghost source bin `(l, m)` with the tetrad matrix
`e_g` of the ghost point and the dual matrix `e_cov_a` of the mirror
point. -/
def reflectEntry (nz np ng : ℕ) (eg ecova : Fin 4 → Fin 4 → ℝ) (ax : Fin 4) (l m : ℤ) :
    RemapEntry where
  ind0 := AngleInd np ng (reflectLa nz np ng eg ecova ax l m - 1)
    (reflectMa nz np ng eg ecova ax l m - 1)
  ind1 := AngleInd np ng (reflectLa nz np ng eg ecova ax l m - 1)
    (reflectMa nz np ng eg ecova ax l m)
  ind2 := AngleInd np ng (reflectLa nz np ng eg ecova ax l m)
    (reflectMa nz np ng eg ecova ax l m - 1)
  ind3 := AngleInd np ng (reflectLa nz np ng eg ecova ax l m)
    (reflectMa nz np ng eg ecova ax l m)
  frac0 := (1 - reflectFracL nz np ng eg ecova ax l m) * (1 - reflectFracM nz np ng eg ecova ax l m)
  frac1 := (1 - reflectFracL nz np ng eg ecova ax l m) * reflectFracM nz np ng eg ecova ax l m
  frac2 := reflectFracL nz np ng eg ecova ax l m * (1 - reflectFracM nz np ng eg ecova ax l m)
  frac3 := reflectFracL nz np ng eg ecova ax l m * reflectFracM nz np ng eg ecova ax l m

/-- The transformed direction `nh_a` of one north/south polar iteration
(lines 539-558 and 600-619).  The single `Tetrad` call of the block (line
538 resp. 599) fills `e_g` and `e_cov_g` at the ghost point; the
back-conversion loop at lines 552-557 / 613-618 nevertheless reads
`e_cov_a`, which no statement of either polar block assigns — it holds
whatever a previously executed reflection block left there (or the initial
contents).  That stale matrix is therefore an explicit parameter
`ecovaStale`, and the ghost point's dual tetrad `ecovg` is an argument the
body never uses, exactly as in the source. -/
def polarNhatA (eg ecovg ecovaStale : Fin 4 → Fin 4 → ℝ) (nh : Fin 4 → ℝ) : Fin 4 → ℝ :=
  nhatA ecovaStale (flipPolar (nVec eg nh))

/-- The recovered `zeta_a` of one polar iteration (lines 559). -/
def polarZeta (nz np ng : ℕ) (eg ecovg ecovaStale : Fin 4 → Fin 4 → ℝ) (l m : ℤ) : ℝ :=
  zetaOf (polarNhatA eg ecovg ecovaStale (nhatG nz np ng l m))

/-- The recovered `psi_a` of one polar iteration (lines 560-561). -/
def polarPsi (nz np ng : ℕ) (eg ecovg ecovaStale : Fin 4 → Fin 4 → ℝ) (l m : ℤ) : ℝ :=
  psiOf (polarNhatA eg ecovg ecovaStale (nhatG nz np ng l m))

/-- The polar-block break index `l_a` (lines 562-567). -/
def polarLa (nz np ng : ℕ) (eg ecovg ecovaStale : Fin 4 → Fin 4 → ℝ) (l m : ℤ) : ℤ :=
  scanBreak (zetav nz ng) (polarZeta nz np ng eg ecovg ecovaStale l m) ((ng : ℤ) - 1) (nz + 2)

/-- The polar-block break index `m_a` (lines 568-573). -/
def polarMa (nz np ng : ℕ) (eg ecovg ecovaStale : Fin 4 → Fin 4 → ℝ) (l m : ℤ) : ℤ :=
  scanBreak (psiv np ng) (polarPsi nz np ng eg ecovg ecovaStale l m) ((ng : ℤ) - 1) (np + 2)

/-- The polar-block `frac_l` (line 578). -/
def polarFracL (nz np ng : ℕ) (eg ecovg ecovaStale : Fin 4 → Fin 4 → ℝ) (l m : ℤ) : ℝ :=
  (polarZeta nz np ng eg ecovg ecovaStale l m
      - zetav nz ng (polarLa nz np ng eg ecovg ecovaStale l m - 1))
    / dzetaf nz ng (polarLa nz np ng eg ecovg ecovaStale l m - 1)

/-- The polar-block `frac_m` (line 579). -/
def polarFracM (nz np ng : ℕ) (eg ecovg ecovaStale : Fin 4 → Fin 4 → ℝ) (l m : ℤ) : ℝ :=
  (polarPsi nz np ng eg ecovg ecovaStale l m
      - psiv np ng (polarMa nz np ng eg ecovg ecovaStale l m - 1))
    / dpsif np ng (polarMa nz np ng eg ecovg ecovaStale l m - 1)

/-- One emitted entry of the north polar transformation (lines 529-588);
the south block (lines 590-649) has the identical body. -/
def polarEntry (nz np ng : ℕ) (eg ecovg ecovaStale : Fin 4 → Fin 4 → ℝ) (l m : ℤ) :
    RemapEntry where
  ind0 := AngleInd np ng (polarLa nz np ng eg ecovg ecovaStale l m - 1)
    (polarMa nz np ng eg ecovg ecovaStale l m - 1)
  ind1 := AngleInd np ng (polarLa nz np ng eg ecovg ecovaStale l m - 1)
    (polarMa nz np ng eg ecovg ecovaStale l m)
  ind2 := AngleInd np ng (polarLa nz np ng eg ecovg ecovaStale l m)
    (polarMa nz np ng eg ecovg ecovaStale l m - 1)
  ind3 := AngleInd np ng (polarLa nz np ng eg ecovg ecovaStale l m)
    (polarMa nz np ng eg ecovg ecovaStale l m)
  frac0 := (1 - polarFracL nz np ng eg ecovg ecovaStale l m)
    * (1 - polarFracM nz np ng eg ecovg ecovaStale l m)
  frac1 := (1 - polarFracL nz np ng eg ecovg ecovaStale l m)
    * polarFracM nz np ng eg ecovg ecovaStale l m
  frac2 := polarFracL nz np ng eg ecovg ecovaStale l m
    * (1 - polarFracM nz np ng eg ecovg ecovaStale l m)
  frac3 := polarFracL nz np ng eg ecovg ecovaStale l m
    * polarFracM nz np ng eg ecovg ecovaStale l m

/-- Boundary kinds (`BoundaryFlag`, declared outside `src/`); only the
values this module compares against are distinguished. -/
inductive BoundaryFlag
  | reflect
  | periodic
  | polar
  | outflow
  | user
  deriving DecidableEq

/-- The six spatial boundary faces (`BoundaryFace`). -/
inductive BoundaryFace
  | inner_x1
  | outer_x1
  | inner_x2
  | outer_x2
  | inner_x3
  | outer_x3
  deriving DecidableEq

/-- Which faces get a reflection remap table allocated and computed: the
guards at lines 134, 199, 264, 329, 394 and 459 of bvals_rad.cpp.  The
first five test their own face's flag; the `outer_x3` block (comment
"Allocate and calculate outer x^3 reflection transformation", line 458)
tests `block_bcs[BoundaryFace::outer_x2]` (line 459). -/
def reflectTableBuilt (bcs : BoundaryFace → BoundaryFlag) : BoundaryFace → Bool
  | .inner_x1 => decide (bcs .inner_x1 = .reflect)
  | .outer_x1 => decide (bcs .outer_x1 = .reflect)
  | .inner_x2 => decide (bcs .inner_x2 = .reflect)
  | .outer_x2 => decide (bcs .outer_x2 = .reflect)
  | .inner_x3 => decide (bcs .inner_x3 = .reflect)
  | .outer_x3 => decide (bcs .outer_x2 = .reflect)

/-- A boundary configuration whose only non-periodic face is a reflecting
outer x³ boundary. -/
def bcsOnlyOuterX3Reflect : BoundaryFace → BoundaryFlag
  | .outer_x3 => .reflect
  | _ => .periodic

/-- A boundary configuration whose only non-periodic face is a reflecting
outer x² boundary. -/
def bcsOnlyOuterX2Reflect : BoundaryFace → BoundaryFlag
  | .outer_x2 => .reflect
  | _ => .periodic

/-- Modelled from the spec: the raw multi-axis array container
(`AthenaArray`, §9 "Raw multi-axis arrays") is declared outside `src/`;
its accessors linearize row-major with the last index fastest, matching
the axis order of the data model.  `athenaIdx2` is the two-index accessor
`a(n, i) = data[i + nx1*n]` of an allocation `(nx2, nx1)`. -/
def athenaIdx2 (nx1 n i : ℤ) : ℤ := i + nx1 * n

/-- Modelled from the spec: the three-index accessor
`a(n, j, i) = data[i + nx1*(j + nx2*n)]` of the same row-major
container. -/
def athenaIdx3 (nx1 nx2 n j i : ℤ) : ℤ := i + nx1 * (j + nx2 * n)

/-- The identity tetrad of flat Cartesian space. -/
def idTet : Fin 4 → Fin 4 → ℝ := fun p n => if p = n then 1 else 0

/-- A dual-tetrad argument whose rows are all zero: the simplest input with
vanishing time-like component `nh_a[0] = 0` (also what `e_cov_a` holds in
the polar blocks when no reflection block ran first, since the temporary
arrays are freshly allocated). -/
def zeroTet : Fin 4 → Fin 4 → ℝ := fun _ _ => 0

/-- The flipped source direction of bin `(1,1)` on the 4×4 grid (time slot
zeroed): the spatial part of `n_a` for the inner-x¹ block with an identity
ghost tetrad. -/
def cexU : Fin 4 → ℝ := fun i =>
  if i.val = 0 then 0
  else if i.val = 1 then -(Real.sin (zetav 4 1 1) * Real.cos (psiv 4 1 1))
  else if i.val = 2 then Real.sin (zetav 4 1 1) * Real.sin (psiv 4 1 1)
  else Real.cos (zetav 4 1 1)

/-- The target unit direction with recovered angles `ζ = 2.4`, `ψ = π`. -/
def cexV : Fin 4 → ℝ := fun i =>
  if i.val = 0 then 0
  else if i.val = 1 then -Real.sin 2.4
  else if i.val = 2 then 0
  else Real.cos 2.4

/-- Householder vector `u - v`. -/
def cexW : Fin 4 → ℝ := fun i => cexU i - cexV i

/-- `‖u - v‖²` (spatial). -/
def cexWW : ℝ := cexW 1 * cexW 1 + cexW 2 * cexW 2 + cexW 3 * cexW 3

/-- `u · v` (spatial). -/
def cexUV : ℝ := cexU 1 * cexV 1 + cexU 2 * cexV 2 + cexU 3 * cexV 3

/-- A flat orthonormal dual tetrad: Minkowski time row and the spatial
Householder reflection through `u - v`, which maps the flipped source
direction `u` to `v`. -/
def cexEcova : Fin 4 → Fin 4 → ℝ := fun i j =>
  if i.val = 0 then (if j.val = 0 then -1 else 0)
  else if j.val = 0 then 0
  else (if i = j then 1 else 0) - 2 * cexW i * cexW j / cexWW

/-- IEEE-faithful variant of the `zeta_a` recovery of lines 166-167: in
C++ doubles, `nh_a[3]/nh_a[0]` with a zero denominator is ±inf or NaN and
`std::acos` of any argument outside `[-1, 1]` is NaN, so the recovered
polar angle is NaN (`none`) exactly when the denominator vanishes or the
quotient leaves `[-1, 1]`; otherwise it is the real `acos` (on which the
total `zetaOf` above is faithful). -/
def zetaOfC (nh : Fin 4 → ℝ) : Option ℝ :=
  if -nh 0 = 0 then none
  else if -1 ≤ nh 3 / -nh 0 ∧ nh 3 / -nh 0 ≤ 1 then some (Real.arccos (nh 3 / -nh 0))
  else none

/-- The bracket loop of lines 170-175 under IEEE comparison semantics:
every comparison `zetav(l_a) > NaN` is false, so a NaN scan value makes
the loop exhaust its whole range and fall through with `l_a = lo + n`
(`= ze+2`); a real scan value behaves as `scanBreak`. -/
def scanBreakC (f : ℤ → ℝ) (x : Option ℝ) (lo : ℤ) (n : ℕ) : ℤ :=
  match x with
  | none => lo + n
  | some a => scanBreak f a lo n

/-- The recovered `zeta_a` of one reflection iteration in the IEEE-faithful
model (NaN as `none`). -/
def reflectZetaC (nz np ng : ℕ) (eg ecova : Fin 4 → Fin 4 → ℝ) (ax : Fin 4) (l m : ℤ) :
    Option ℝ :=
  zetaOfC (nhatA ecova (flipA ax (nVec eg (nhatG nz np ng l m))))

/-- The break index `l_a` in the IEEE-faithful model.  (The azimuthal
search needs no such variant: `atan2` of finite arguments is always
finite, so `reflectMa` is already faithful.) -/
def reflectLaC (nz np ng : ℕ) (eg ecova : Fin 4 → Fin 4 → ℝ) (ax : Fin 4) (l m : ℤ) : ℤ :=
  scanBreakC (zetav nz ng) (reflectZetaC nz np ng eg ecova ax l m) ((ng : ℤ) - 1) (nz + 2)

/-- A dual-tetrad input whose third row is scaled by 2 (as an
un-normalized or inconsistent tetrad provider could return): the
transformed direction has `nh_a[3]/nh_a[0] = 2`, outside the domain of
`acos`. -/
def cexC5ecova : Fin 4 → Fin 4 → ℝ := fun i j =>
  if i.val = 0 then (if j.val = 0 then -1 else 0)
  else if i.val = 3 then (if j.val = 0 then 2 else 0)
  else 0

end

/-! ## Structural claims: the boundary-flag guards and the polar blocks -/

/-- C1: the claim states that a face's reflection table is built iff
that face's own boundary flag is `reflect` — in particular that the outer-x³
table is built exactly when the outer-x³ flag is `reflect`.  At the concrete
configuration `bcsOnlyOuterX3Reflect` (outer x³ reflecting, all else
periodic) no outer-x³ table is built, and at `bcsOnlyOuterX2Reflect`
(outer x³ periodic) one is: the guard at line 459 reads the outer-x² flag. -/
theorem C1_outer_x3_guard_mismatch :
    bcsOnlyOuterX3Reflect BoundaryFace.outer_x3 = BoundaryFlag.reflect ∧
    reflectTableBuilt bcsOnlyOuterX3Reflect BoundaryFace.outer_x3 = false ∧
    bcsOnlyOuterX2Reflect BoundaryFace.outer_x3 = BoundaryFlag.periodic ∧
    reflectTableBuilt bcsOnlyOuterX2Reflect BoundaryFace.outer_x3 = true := by
  refine ⟨rfl, rfl, rfl, rfl⟩

/-- C3: the claim states the polar back-conversion uses the dual tetrad
evaluated at the ghost point (the polar mirror being the same spatial
point).  In the code the polar blocks' back-conversion is invariant under
arbitrary replacement of the ghost point's dual tetrad `e_cov_g` — the
matrix the block's own `Tetrad` call produced — because lines 552-557 and
613-618 read the unassigned `e_cov_a` instead. -/
theorem C3_polar_ignores_ghost_dual_tetrad
    (nz np ng : ℕ) (eg ecovg ecovg' ecovaStale : Fin 4 → Fin 4 → ℝ) (l m : ℤ) :
    polarEntry nz np ng eg ecovg ecovaStale l m
      = polarEntry nz np ng eg ecovg' ecovaStale l m := rfl

/-! ## The unit-direction table and the center formulas -/

/-- C4: with `nzeta = 1`, `npsi = 4` and ghost width 1 (`nang = 18`),
every rescaling write `nh_g(1,l,m) *= 0.816496580927726` of lines 126-129
linearizes (three-index accessor on the `(4, nang)` allocation of line 116)
to an element at or beyond the end of the allocation, and never to the
two-index element `nh_g(1, AngleInd(l,m))` the claim is about; the stored
transverse component remains the unscaled `sin ζᵥ cos ψᵥ`. -/
theorem C4_isotropic_rescale_write_out_of_bounds :
    (∀ l ∈ Finset.Icc (0 : ℤ) 2, ∀ m ∈ Finset.Icc (0 : ℤ) 5,
      ¬ athenaIdx3 18 4 1 l m < 4 * 18 ∧
        athenaIdx3 18 4 1 l m ≠ athenaIdx2 18 1 (AngleInd 4 1 l m)) ∧
    nhatG 1 4 1 0 0 1 = Real.sin (zetav 1 1 0) * Real.cos (psiv 4 1 0) := by
  constructor
  · decide
  · rfl

/-- C9: for every bin of the padded grid, the polar center is the
flux-weighted closed form of its two bounding faces and the azimuthal
center is the plain arithmetic midpoint of its two faces. -/
theorem C9_center_formulas (nz np ng : ℕ) (l m : ℤ)
    (hl : 0 ≤ l ∧ l ≤ (nz : ℤ) + 2 * ng - 1) (hm : 0 ≤ m ∧ m ≤ (np : ℤ) + 2 * ng - 1) :
    zetav nz ng l =
      (zetaf nz ng (l + 1) * Real.cos (zetaf nz ng (l + 1)) - Real.sin (zetaf nz ng (l + 1))
          - zetaf nz ng l * Real.cos (zetaf nz ng l) + Real.sin (zetaf nz ng l))
        / (Real.cos (zetaf nz ng (l + 1)) - Real.cos (zetaf nz ng l)) ∧
    psiv np ng m = (psif np ng m + psif np ng (m + 1)) / 2 :=
  ⟨rfl, by unfold psiv; ring⟩

/-- Witness for C9 at `nzeta = npsi = 4`, ghost width 1, bin `(0,0)`. -/
theorem C9_center_formulas_witness :
    zetav 4 1 0 =
      (zetaf 4 1 (0 + 1) * Real.cos (zetaf 4 1 (0 + 1)) - Real.sin (zetaf 4 1 (0 + 1))
          - zetaf 4 1 0 * Real.cos (zetaf 4 1 0) + Real.sin (zetaf 4 1 0))
        / (Real.cos (zetaf 4 1 (0 + 1)) - Real.cos (zetaf 4 1 0)) ∧
    psiv 4 1 0 = (psif 4 1 0 + psif 4 1 (0 + 1)) / 2 :=
  C9_center_formulas 4 4 1 0 0 ⟨by norm_num, by norm_num⟩ ⟨by norm_num, by norm_num⟩

/-- C10: for `nzeta > 1` the cached direction of every padded bin has
time-like component exactly 1 and a spatial part of unit Euclidean norm. -/
theorem C10_unit_direction (nz np ng : ℕ) (hnz : 1 < nz) (l m : ℤ) :
    nhatG nz np ng l m 0 = 1 ∧
    nhatG nz np ng l m 1 ^ 2 + nhatG nz np ng l m 2 ^ 2 + nhatG nz np ng l m 3 ^ 2 = 1 := by
  refine ⟨rfl, ?_⟩
  show (Real.sin (zetav nz ng l) * Real.cos (psiv np ng m)) ^ 2
      + (Real.sin (zetav nz ng l) * Real.sin (psiv np ng m)) ^ 2
      + Real.cos (zetav nz ng l) ^ 2 = 1
  have h1 := Real.sin_sq_add_cos_sq (psiv np ng m)
  have h2 := Real.sin_sq_add_cos_sq (zetav nz ng l)
  nlinarith [h1, h2]

/-- Witness for C10 at `nzeta = npsi = 4`, ghost width 1, bin `(0,0)`. -/
theorem C10_unit_direction_witness :
    nhatG 4 4 1 0 0 0 = 1 ∧
    nhatG 4 4 1 0 0 1 ^ 2 + nhatG 4 4 1 0 0 2 ^ 2 + nhatG 4 4 1 0 0 3 ^ 2 = 1 :=
  C10_unit_direction 4 4 1 (by norm_num) 0 0

/-- C2 (amended): every entry emitted by a reflection block or a polar
block has bilinear weights summing to exactly 1 — a partition of unity for
arbitrary tetrad inputs.  (The individual weights need not lie in `[0,1]`;
see `C2_weight_outside_unit_interval`.) -/
theorem C2_weights_sum_to_one (nz np ng : ℕ) (eg ecova ecovg : Fin 4 → Fin 4 → ℝ)
    (ax : Fin 4) (l m : ℤ) :
    (reflectEntry nz np ng eg ecova ax l m).frac0
        + (reflectEntry nz np ng eg ecova ax l m).frac1
        + (reflectEntry nz np ng eg ecova ax l m).frac2
        + (reflectEntry nz np ng eg ecova ax l m).frac3 = 1 ∧
    (polarEntry nz np ng eg ecovg ecova l m).frac0
        + (polarEntry nz np ng eg ecovg ecova l m).frac1
        + (polarEntry nz np ng eg ecovg ecova l m).frac2
        + (polarEntry nz np ng eg ecovg ecova l m).frac3 = 1 := by
  constructor
  · simp only [reflectEntry]
    ring
  · simp only [polarEntry]
    ring

/-! ## The azimuthal face array (C8) -/

/-- For indices in the interior range the padded `psif` agrees with the
interior assignment `psifI`. -/
lemma psif_interior (np ng : ℕ) (m : ℤ) (h1 : (ng : ℤ) ≤ m) (h2 : m ≤ (np : ℤ) + ng) :
    psif np ng m = psifI np ng m := by
  unfold psif
  rw [if_neg (by omega), if_neg (by omega)]

/-- C8: `psif(ps) = 0` and `psif(pe+1) = 2π` exactly, each beginning
ghost face is the corresponding interior face shifted by `-2π`, and each
end ghost face is the corresponding interior face shifted by `+2π`. -/
theorem C8_psif_grid (np ng : ℕ) (hnp : 1 ≤ np) (hng : 1 ≤ ng) (hgp : ng ≤ np) :
    psif np ng ng = 0 ∧
    psif np ng ((np : ℤ) + ng) = 2 * Real.pi ∧
    (∀ m : ℤ, 0 ≤ m → m < (ng : ℤ) → psif np ng m = psif np ng ((np : ℤ) + m) - 2 * Real.pi) ∧
    (∀ m : ℤ, 0 ≤ m → m < (ng : ℤ) →
      psif np ng ((np : ℤ) + 2 * ng - m) = psif np ng (2 * (ng : ℤ) - m) + 2 * Real.pi) := by
  refine ⟨?_, ?_, ?_, ?_⟩
  · rw [psif_interior np ng ng le_rfl (by omega)]
    unfold psifI
    rw [if_pos rfl]
  · rw [psif_interior np ng _ (by omega) le_rfl]
    unfold psifI
    rw [if_neg (by omega), if_pos rfl]
  · intro m h0 h1
    have hL : psif np ng m = psifI np ng ((np : ℤ) + m) - 2 * Real.pi := by
      unfold psif
      rw [if_pos (by omega)]
    rw [hL, psif_interior np ng _ (by omega) (by omega)]
  · intro m h0 h1
    have hL : psif np ng ((np : ℤ) + 2 * ng - m)
        = psifI np ng ((np : ℤ) + 2 * ng - m - np) + 2 * Real.pi := by
      unfold psif
      rw [if_neg (by omega), if_pos (by omega)]
    have harg : (np : ℤ) + 2 * ng - m - np = 2 * (ng : ℤ) - m := by ring
    rw [hL, harg, psif_interior np ng _ (by omega) (by omega)]

/-- Witness for C8 at `npsi = 4`, ghost width 1: both exact endpoint values
and the two ghost-face shifts at `m = 0`. -/
theorem C8_psif_grid_witness :
    psif 4 1 1 = 0 ∧ psif 4 1 5 = 2 * Real.pi ∧
    psif 4 1 0 = psif 4 1 4 - 2 * Real.pi ∧
    psif 4 1 6 = psif 4 1 2 + 2 * Real.pi := by
  have h := C8_psif_grid 4 1 (by norm_num) (by norm_num) (by norm_num)
  refine ⟨?_, ?_, ?_, ?_⟩
  · exact_mod_cast h.1
  · exact_mod_cast h.2.1
  · have := h.2.2.1 0 le_rfl (by norm_num)
    exact_mod_cast this
  · have := h.2.2.2 0 le_rfl (by norm_num)
    exact_mod_cast this

/-! ## The polar face array (C7) -/

/-- The equal-in-cosine argument `czeta = 1 + (l - NGHOST_RAD)*dczeta` is in
`[-1, 1]` over the interior face range. -/
lemma czeta_mem (nz ng : ℕ) (hnz : 1 ≤ nz) (l : ℤ) (h1 : (ng : ℤ) ≤ l)
    (h2 : l ≤ (nz : ℤ) + ng) :
    1 + ((l : ℝ) - (ng : ℝ)) * (-2 / (nz : ℝ)) ∈ Set.Icc (-1 : ℝ) 1 := by
  have hz : (0 : ℝ) < (nz : ℝ) := by exact_mod_cast Nat.pos_of_ne_zero (by omega)
  have hl0 : (0 : ℝ) ≤ (l : ℝ) - (ng : ℝ) := by
    have : ((ng : ℤ) : ℝ) ≤ (l : ℝ) := by exact_mod_cast h1
    push_cast at this ⊢
    linarith
  have hl1 : (l : ℝ) - (ng : ℝ) ≤ (nz : ℝ) := by
    have : (l : ℝ) ≤ (((nz : ℤ) + ng : ℤ) : ℝ) := by exact_mod_cast h2
    push_cast at this ⊢
    linarith
  have he : 1 + ((l : ℝ) - (ng : ℝ)) * (-2 / (nz : ℝ))
      = ((nz : ℝ) - 2 * ((l : ℝ) - (ng : ℝ))) / (nz : ℝ) := by
    field_simp
    ring
  rw [Set.mem_Icc, he, le_div_iff₀ hz, div_le_iff₀ hz]
  constructor <;> linarith

/-- On the interior face range, every branch of the assignment collapses to
the exact-arithmetic closed form `arccos(1 + (l - NGHOST_RAD)*dczeta)`. -/
lemma zetafI_eq_arccos (nz ng : ℕ) (hnz : 1 ≤ nz) (l : ℤ) (h1 : (ng : ℤ) ≤ l)
    (h2 : l ≤ (nz : ℤ) + ng) :
    zetafI nz ng l = Real.arccos (1 + ((l : ℝ) - (ng : ℝ)) * (-2 / (nz : ℝ))) := by
  have hz : (nz : ℝ) ≠ 0 := by
    have : (0 : ℝ) < (nz : ℝ) := by exact_mod_cast Nat.pos_of_ne_zero (by omega)
    linarith
  unfold zetafI
  by_cases e1 : l = (ng : ℤ)
  · rw [if_pos e1, e1]
    have : 1 + (((ng : ℤ) : ℝ) - (ng : ℝ)) * (-2 / (nz : ℝ)) = 1 := by
      push_cast
      ring
    rw [this, Real.arccos_one]
  by_cases e2 : l = (nz : ℤ) + ng
  · rw [if_neg e1, if_pos e2, e2]
    have : 1 + ((((nz : ℤ) + ng : ℤ) : ℝ) - (ng : ℝ)) * (-2 / (nz : ℝ)) = -1 := by
      push_cast
      field_simp
      ring
    rw [this, Real.arccos_neg_one]
  by_cases e3 : nz % 2 = 0 ∧ l = (nz : ℤ) / 2 + ng
  · rw [if_neg e1, if_neg e2, if_pos e3]
    obtain ⟨k, hk⟩ : ∃ k : ℕ, nz = 2 * k := ⟨nz / 2, by omega⟩
    have hl : l = (k : ℤ) + ng := by omega
    have hk0 : (k : ℝ) ≠ 0 := by
      have : 1 ≤ k := by omega
      exact_mod_cast by omega
    have : 1 + ((l : ℝ) - (ng : ℝ)) * (-2 / (nz : ℝ)) = 0 := by
      rw [hl, hk]
      push_cast
      field_simp
      ring
    rw [this, Real.arccos_zero]
  by_cases e4 : l ≤ ((nz : ℤ) - 1) / 2 + ng
  · rw [if_neg e1, if_neg e2, if_neg e3, if_pos e4]
  · rw [if_neg e1, if_neg e2, if_neg e3, if_neg e4]
    have harg : 1 + ((l : ℝ) - (ng : ℝ)) * (-2 / (nz : ℝ))
        = -(1 + (((nz : ℝ) + 2 * (ng : ℝ) - (l : ℝ)) - (ng : ℝ)) * (-2 / (nz : ℝ))) := by
      field_simp
      ring
    rw [harg, Real.arccos_neg]

/-- For indices in the interior face range the padded `zetaf` agrees with
the interior assignment `zetafI`. -/
lemma zetaf_interior (nz ng : ℕ) (l : ℤ) (h1 : (ng : ℤ) ≤ l) (h2 : l ≤ (nz : ℤ) + ng) :
    zetaf nz ng l = zetafI nz ng l := by
  unfold zetaf
  rw [if_neg (by omega), if_neg (by omega)]

/-- The interior faces are strictly increasing. -/
lemma zetafI_strictMono (nz ng : ℕ) (hnz : 1 ≤ nz) (l1 l2 : ℤ) (h1 : (ng : ℤ) ≤ l1)
    (hlt : l1 < l2) (h2 : l2 ≤ (nz : ℤ) + ng) :
    zetafI nz ng l1 < zetafI nz ng l2 := by
  rw [zetafI_eq_arccos nz ng hnz l1 h1 (by omega),
    zetafI_eq_arccos nz ng hnz l2 (by omega) h2]
  have hz : (0 : ℝ) < (nz : ℝ) := by exact_mod_cast Nat.pos_of_ne_zero (by omega)
  have hcast : ((l1 : ℝ)) < (l2 : ℝ) := by exact_mod_cast hlt
  have harg : 1 + ((l2 : ℝ) - (ng : ℝ)) * (-2 / (nz : ℝ))
      < 1 + ((l1 : ℝ) - (ng : ℝ)) * (-2 / (nz : ℝ)) := by
    have hd : (0 : ℝ) < 2 / (nz : ℝ) := by positivity
    have hp := mul_pos (sub_pos.mpr hcast) hd
    have key : ((l2 : ℝ) - (ng : ℝ)) * (-2 / (nz : ℝ))
        - ((l1 : ℝ) - (ng : ℝ)) * (-2 / (nz : ℝ))
        = -(((l2 : ℝ) - (l1 : ℝ)) * (2 / (nz : ℝ))) := by ring
    linarith
  exact Real.strictAntiOn_arccos (czeta_mem nz ng hnz l2 (by omega) h2)
    (czeta_mem nz ng hnz l1 h1 (by omega)) harg

/-- `arccos x < π` strictly when `-1 < x`. -/
lemma arccos_lt_pi_of_gt {x : ℝ} (h : -1 < x) : Real.arccos x < Real.pi := by
  refine lt_of_le_of_ne (Real.arccos_le_pi x) ?_
  intro he
  have := Real.arccos_eq_pi.mp he
  linarith

/-- One step of strict monotonicity of the padded polar faces. -/
lemma zetaf_lt_succ (nz ng : ℕ) (hnz : 1 ≤ nz) (hng : 1 ≤ ng) (hgz : ng ≤ nz)
    (l : ℤ) (h0 : 0 ≤ l) (h1 : l ≤ (nz : ℤ) + 2 * ng - 1) :
    zetaf nz ng l < zetaf nz ng (l + 1) := by
  have hz : (0 : ℝ) < (nz : ℝ) := by exact_mod_cast Nat.pos_of_ne_zero (by omega)
  by_cases cA : l + 1 < (ng : ℤ)
  · -- both indices are northern ghost faces
    have eL : zetaf nz ng l = -zetafI nz ng (2 * ng - l) := by
      unfold zetaf
      rw [if_pos (by omega)]
    have eR : zetaf nz ng (l + 1) = -zetafI nz ng (2 * ng - (l + 1)) := by
      unfold zetaf
      rw [if_pos (by omega)]
    rw [eL, eR, neg_lt_neg_iff]
    exact zetafI_strictMono nz ng hnz _ _ (by omega) (by omega) (by omega)
  by_cases cB : l + 1 = (ng : ℤ)
  · -- junction: last northern ghost face against the north pole
    have eL : zetaf nz ng l = -zetafI nz ng (2 * ng - l) := by
      unfold zetaf
      rw [if_pos (by omega)]
    have eR : zetaf nz ng (l + 1) = 0 := by
      rw [zetaf_interior nz ng _ (by omega) (by omega), cB]
      unfold zetafI
      rw [if_pos rfl]
    rw [eL, eR, neg_lt, neg_zero]
    have harg : 2 * (ng : ℤ) - l = ng + 1 := by omega
    rw [harg, zetafI_eq_arccos nz ng hnz _ (by omega) (by omega)]
    refine Real.arccos_pos.mpr ?_
    have he : 1 + (((ng : ℤ) + 1 : ℤ) : ℝ) - (ng : ℝ) = 2 := by push_cast; ring
    have hd : (0 : ℝ) < 2 / (nz : ℝ) := by positivity
    have h1' : ((((ng : ℤ) + 1 : ℤ) : ℝ) - (ng : ℝ)) = 1 := by push_cast; ring
    rw [h1']
    have : (1 : ℝ) * (-2 / (nz : ℝ)) = -(2 / (nz : ℝ)) := by ring
    linarith
  by_cases cC : l + 1 ≤ (nz : ℤ) + ng
  · -- both indices are interior faces
    rw [zetaf_interior nz ng l (by omega) (by omega),
      zetaf_interior nz ng (l + 1) (by omega) cC]
    exact zetafI_strictMono nz ng hnz _ _ (by omega) (by omega) cC
  by_cases cD : l = (nz : ℤ) + ng
  · -- junction: south pole against the first southern ghost face
    have eL : zetaf nz ng l = Real.pi := by
      rw [zetaf_interior nz ng l (by omega) (by omega), cD]
      unfold zetafI
      rw [if_neg (by omega), if_pos rfl]
    have eR : zetaf nz ng (l + 1)
        = 2 * Real.pi - zetafI nz ng (2 * nz + 2 * ng - (l + 1)) := by
      unfold zetaf
      rw [if_neg (by omega), if_pos (by omega)]
    have harg : 2 * (nz : ℤ) + 2 * ng - (l + 1) = nz + ng - 1 := by omega
    rw [eL, eR, harg, zetafI_eq_arccos nz ng hnz _ (by omega) (by omega)]
    have hlt : Real.arccos (1 + ((((nz : ℤ) + ng - 1 : ℤ) : ℝ) - (ng : ℝ)) * (-2 / (nz : ℝ)))
        < Real.pi := by
      refine arccos_lt_pi_of_gt ?_
      have : ((((nz : ℤ) + ng - 1 : ℤ) : ℝ) - (ng : ℝ)) = (nz : ℝ) - 1 := by push_cast; ring
      rw [this]
      have he : 1 + ((nz : ℝ) - 1) * (-2 / (nz : ℝ)) = (2 - (nz : ℝ)) / (nz : ℝ) := by
        field_simp
        ring
      rw [he, lt_div_iff₀ hz]
      linarith
    linarith
  · -- both indices are southern ghost faces
    have eL : zetaf nz ng l = 2 * Real.pi - zetafI nz ng (2 * nz + 2 * ng - l) := by
      unfold zetaf
      rw [if_neg (by omega), if_pos (by omega)]
    have eR : zetaf nz ng (l + 1)
        = 2 * Real.pi - zetafI nz ng (2 * nz + 2 * ng - (l + 1)) := by
      unfold zetaf
      rw [if_neg (by omega), if_pos (by omega)]
    rw [eL, eR, sub_lt_sub_iff_left]
    exact zetafI_strictMono nz ng hnz _ _ (by omega) (by omega) (by omega)

/-- Strict monotonicity of the padded polar faces over the whole padded
face range. -/
lemma zetaf_strictMono (nz ng : ℕ) (hnz : 1 ≤ nz) (hng : 1 ≤ ng) (hgz : ng ≤ nz)
    (a b : ℤ) (h0 : 0 ≤ a) (hab : a < b) (hb : b ≤ (nz : ℤ) + 2 * ng) :
    zetaf nz ng a < zetaf nz ng b := by
  have key : ∀ k : ℕ, ∀ n : ℤ, n = a + 1 + k → n ≤ (nz : ℤ) + 2 * ng →
      zetaf nz ng a < zetaf nz ng n := by
    intro k
    induction k with
    | zero =>
      intro n hn hB
      have he : n = a + 1 := by omega
      rw [he]
      exact zetaf_lt_succ nz ng hnz hng hgz a h0 (by omega)
    | succ k ih =>
      intro n hn hB
      have h1' : zetaf nz ng a < zetaf nz ng (a + 1 + k) := ih (a + 1 + k) rfl (by omega)
      have step := zetaf_lt_succ nz ng hnz hng hgz (a + 1 + k) (by omega) (by omega)
      have he : n = a + 1 + k + 1 := by omega
      rw [he]
      exact lt_trans h1' step
  obtain ⟨k, hk⟩ : ∃ k : ℕ, b = a + 1 + k := ⟨(b - a - 1).toNat, by omega⟩
  exact key k b hk hb

/-- C7: for every valid resolution and ghost width, `zetaf` is strictly
increasing over the full padded face range, the north pole face is exactly
0, the south pole face is exactly π, and for even `nzeta` the equator face
is exactly π/2. -/
theorem C7_zetaf_grid (nz ng : ℕ) (hnz : 1 ≤ nz) (hng : 1 ≤ ng) (hgz : ng ≤ nz) :
    (∀ a b : ℤ, 0 ≤ a → a < b → b ≤ (nz : ℤ) + 2 * ng → zetaf nz ng a < zetaf nz ng b) ∧
    zetaf nz ng ng = 0 ∧
    zetaf nz ng ((nz : ℤ) + ng) = Real.pi ∧
    (nz % 2 = 0 → zetaf nz ng ((nz : ℤ) / 2 + ng) = Real.pi / 2) := by
  refine ⟨fun a b h0 hab hb => zetaf_strictMono nz ng hnz hng hgz a b h0 hab hb, ?_, ?_, ?_⟩
  · rw [zetaf_interior nz ng ng le_rfl (by omega)]
    unfold zetafI
    rw [if_pos rfl]
  · rw [zetaf_interior nz ng _ (by omega) le_rfl]
    unfold zetafI
    rw [if_neg (by omega), if_pos rfl]
  · intro hev
    rw [zetaf_interior nz ng _ (by omega) (by omega)]
    unfold zetafI
    rw [if_neg (by omega), if_neg (by omega), if_pos ⟨hev, rfl⟩]

/-- Witness for C7 at `nzeta = 4`, ghost width 1: a sample strict increase
and the three exact face values. -/
theorem C7_zetaf_grid_witness :
    zetaf 4 1 0 < zetaf 4 1 6 ∧ zetaf 4 1 1 = 0 ∧
    zetaf 4 1 5 = Real.pi ∧ zetaf 4 1 3 = Real.pi / 2 := by
  have h := C7_zetaf_grid 4 1 (by norm_num) (by norm_num) (by norm_num)
  refine ⟨?_, ?_, ?_, ?_⟩
  · have := h.1 0 6 le_rfl (by norm_num) (by norm_num)
    exact_mod_cast this
  · exact_mod_cast h.2.1
  · exact_mod_cast h.2.2.1
  · have := h.2.2.2 rfl
    exact_mod_cast this

/-! ## Bracket-search properties (C5) -/

lemma scanBreak_lower (f : ℤ → ℝ) (x : ℝ) :
    ∀ (n : ℕ) (lo : ℤ), lo ≤ scanBreak f x lo n := by
  intro n
  induction n with
  | zero => intro lo; simp [scanBreak]
  | succ n ih =>
    intro lo
    simp only [scanBreak]
    split_ifs with h
    · exact le_refl lo
    · exact le_trans (by omega) (ih (lo + 1))

lemma scanBreak_upper (f : ℤ → ℝ) (x : ℝ) :
    ∀ (n : ℕ) (lo : ℤ), scanBreak f x lo n ≤ lo + n := by
  intro n
  induction n with
  | zero => intro lo; simp [scanBreak]
  | succ n ih =>
    intro lo
    simp only [scanBreak]
    split_ifs with h
    · omega
    · have := ih (lo + 1)
      push_cast at this ⊢
      omega

/-- If the loop's first comparison does not break, the result is at least
`lo + 1`. -/
lemma scanBreak_ge_one (f : ℤ → ℝ) (x : ℝ) (n : ℕ) (lo : ℤ) (h : ¬ x < f lo) :
    lo + 1 ≤ scanBreak f x lo (n + 1) := by
  simp only [scanBreak]
  rw [if_neg h]
  exact scanBreak_lower f x n (lo + 1)

/-- The loop breaks no later than any in-range index whose value exceeds
`x`. -/
lemma scanBreak_le_found (f : ℤ → ℝ) (x : ℝ) :
    ∀ (n : ℕ) (lo j : ℤ), lo ≤ j → j < lo + n → x < f j → scanBreak f x lo n ≤ j := by
  intro n
  induction n with
  | zero =>
    intro lo j h1 h2 _
    exact absurd h2 (by omega)
  | succ n ih =>
    intro lo j h1 h2 hj
    simp only [scanBreak]
    split_ifs with hlo
    · exact h1
    · have hne : lo ≠ j := by
        rintro rfl
        exact hlo hj
      have := ih (lo + 1) j (by omega) (by push_cast at h2 ⊢; omega) hj
      omega

/-- The exact break index: `scanBreak` returns `j` when `f` first exceeds
`x` there. -/
lemma scanBreak_eq (f : ℤ → ℝ) (x : ℝ) :
    ∀ (n : ℕ) (lo j : ℤ), lo ≤ j → j < lo + n →
      (∀ i : ℤ, lo ≤ i → i < j → ¬ x < f i) → x < f j → scanBreak f x lo n = j := by
  intro n
  induction n with
  | zero =>
    intro lo j h1 h2 _ _
    exact absurd h2 (by omega)
  | succ n ih =>
    intro lo j h1 h2 hall hj
    simp only [scanBreak]
    split_ifs with hlo
    · rcases eq_or_lt_of_le h1 with he | hlt
      · exact he
      · exact absurd hlo (hall lo le_rfl hlt)
    · have hne : lo ≠ j := by
        rintro rfl
        exact hlo hj
      exact ih (lo + 1) j (by omega) (by push_cast at h2 ⊢; omega)
        (fun i hi1 hi2 => hall i (by omega) hi2) hj

/-! ## Ranges of the recovered angles -/

lemma atan2_le_pi (y x : ℝ) : atan2 y x ≤ Real.pi := by
  unfold atan2
  have hpi := Real.pi_pos
  have h1 := Real.arctan_lt_pi_div_two (y / x)
  have h2 := Real.neg_pi_div_two_lt_arctan (y / x)
  split_ifs with c1 c2 c3 c4 c5
  · linarith
  · have hyx : y / x ≤ 0 := div_nonpos_iff.mpr (Or.inl ⟨c2.2, le_of_lt c2.1⟩)
    have harc : Real.arctan (y / x) ≤ 0 := by
      have := Real.arctan_strictMono.monotone hyx
      rwa [Real.arctan_zero] at this
    linarith
  · linarith
  · linarith
  · linarith
  · linarith

lemma neg_pi_lt_atan2 (y x : ℝ) : -Real.pi < atan2 y x := by
  unfold atan2
  have hpi := Real.pi_pos
  have h1 := Real.arctan_lt_pi_div_two (y / x)
  have h2 := Real.neg_pi_div_two_lt_arctan (y / x)
  split_ifs with c1 c2 c3 c4 c5
  · linarith
  · linarith
  · push_neg at c2
    have hy : y < 0 := by
      rcases lt_or_ge y 0 with h | h
      · exact h
      · exact absurd (c2 c3) (not_lt.mpr h)
    have hyx : 0 < y / x := div_pos_iff.mpr (Or.inr ⟨hy, c3⟩)
    have harc : 0 < Real.arctan (y / x) := by
      have := Real.arctan_strictMono hyx
      rwa [Real.arctan_zero] at this
    linarith
  · linarith
  · linarith
  · linarith

lemma psiOf_nonneg (nh : Fin 4 → ℝ) : 0 ≤ psiOf nh := by
  unfold psiOf
  have h1 := neg_pi_lt_atan2 (nh 2) (nh 1)
  have hpi := Real.pi_pos
  split_ifs with h
  · linarith
  · linarith

lemma psiOf_lt_two_pi (nh : Fin 4 → ℝ) : psiOf nh < 2 * Real.pi := by
  unfold psiOf
  have h1 := atan2_le_pi (nh 2) (nh 1)
  have hpi := Real.pi_pos
  split_ifs with h
  · linarith
  · linarith

/-! ## The key analytic fact: `y·cos y < sin y` on `(0, π]` -/

lemma mul_cos_lt_sin {y : ℝ} (h0 : 0 < y) (h1 : y ≤ Real.pi) :
    y * Real.cos y < Real.sin y := by
  have hderiv : ∀ t : ℝ,
      HasDerivAt (fun s => Real.sin s - s * Real.cos s) (t * Real.sin t) t := by
    intro t
    have hs : HasDerivAt Real.sin (Real.cos t) t := Real.hasDerivAt_sin t
    have hm : HasDerivAt (fun s : ℝ => s * Real.cos s)
        (1 * Real.cos t + t * -Real.sin t) t :=
      (hasDerivAt_id t).mul (Real.hasDerivAt_cos t)
    have := hs.sub hm
    convert this using 1
    ring
  have hmono : StrictMonoOn (fun s => Real.sin s - s * Real.cos s)
      (Set.Icc 0 Real.pi) := by
    apply strictMonoOn_of_deriv_pos (convex_Icc 0 Real.pi)
    · exact (Real.continuous_sin.sub (continuous_id.mul Real.continuous_cos)).continuousOn
    · intro t ht
      rw [interior_Icc] at ht
      rw [(hderiv t).deriv]
      exact mul_pos ht.1 (Real.sin_pos_of_pos_of_lt_pi ht.1 ht.2)
  have hlt := hmono (Set.left_mem_Icc.mpr (le_of_lt Real.pi_pos)) ⟨le_of_lt h0, h1⟩ h0
  simp only [Real.sin_zero, Real.cos_zero, mul_one, zero_mul, sub_zero, mul_zero] at hlt
  linarith [hlt]

/-! ## The padded center arrays over-cover the recoverable angle ranges -/

/-- The northernmost ghost-bin polar center is negative. -/
lemma zetav_north_ghost_neg (nz ng : ℕ) (hnz : 1 ≤ nz) (hng : 1 ≤ ng) (hgz : ng ≤ nz) :
    zetav nz ng ((ng : ℤ) - 1) < 0 := by
  have hz : (0 : ℝ) < (nz : ℝ) := by exact_mod_cast Nat.pos_of_ne_zero (by omega)
  have hz1 : (1 : ℝ) ≤ (nz : ℝ) := by exact_mod_cast hnz
  have hf1 : zetaf nz ng (((ng : ℤ) - 1) + 1) = 0 := by
    have he : ((ng : ℤ) - 1) + 1 = (ng : ℤ) := by ring
    rw [he, zetaf_interior nz ng ng le_rfl (by omega)]
    unfold zetafI
    rw [if_pos rfl]
  have hf0 : zetaf nz ng ((ng : ℤ) - 1) = -Real.arccos (1 - 2 / (nz : ℝ)) := by
    unfold zetaf
    rw [if_pos (by omega)]
    have harg : 2 * (ng : ℤ) - ((ng : ℤ) - 1) = (ng : ℤ) + 1 := by ring
    rw [harg, zetafI_eq_arccos nz ng hnz _ (by omega) (by omega)]
    have he : 1 + ((((ng : ℤ) + 1 : ℤ) : ℝ) - (ng : ℝ)) * (-2 / (nz : ℝ))
        = 1 - 2 / (nz : ℝ) := by
      push_cast
      ring
    rw [he]
  have hd : (0 : ℝ) < 2 / (nz : ℝ) := by positivity
  have hdle : 2 / (nz : ℝ) ≤ 2 := by
    rw [div_le_iff₀ hz]
    nlinarith
  have hcos : Real.cos (Real.arccos (1 - 2 / (nz : ℝ))) = 1 - 2 / (nz : ℝ) :=
    Real.cos_arccos (by linarith) (by linarith)
  have hxpos : 0 < Real.arccos (1 - 2 / (nz : ℝ)) := Real.arccos_pos.mpr (by linarith)
  have hxle : Real.arccos (1 - 2 / (nz : ℝ)) ≤ Real.pi := Real.arccos_le_pi _
  have hkey := mul_cos_lt_sin hxpos hxle
  unfold zetav
  rw [hf1, hf0, Real.cos_zero, Real.sin_zero, Real.cos_neg, Real.sin_neg]
  apply div_neg_of_neg_of_pos
  · nlinarith [hkey]
  · rw [hcos]
    linarith

/-- The southernmost ghost-bin polar center exceeds π. -/
lemma zetav_south_ghost_gt_pi (nz ng : ℕ) (hnz : 1 ≤ nz) (hng : 1 ≤ ng) (hgz : ng ≤ nz) :
    Real.pi < zetav nz ng ((nz : ℤ) + ng) := by
  have hz : (0 : ℝ) < (nz : ℝ) := by exact_mod_cast Nat.pos_of_ne_zero (by omega)
  have hz1 : (1 : ℝ) ≤ (nz : ℝ) := by exact_mod_cast hnz
  have hf0 : zetaf nz ng ((nz : ℤ) + ng) = Real.pi := by
    rw [zetaf_interior nz ng _ (by omega) le_rfl]
    unfold zetafI
    rw [if_neg (by omega), if_pos rfl]
  have hf1 : zetaf nz ng (((nz : ℤ) + ng) + 1)
      = 2 * Real.pi - Real.arccos ((2 - (nz : ℝ)) / (nz : ℝ)) := by
    unfold zetaf
    rw [if_neg (by omega), if_pos (by omega)]
    have harg : 2 * (nz : ℤ) + 2 * ng - ((nz : ℤ) + ng + 1) = (nz : ℤ) + ng - 1 := by ring
    rw [harg, zetafI_eq_arccos nz ng hnz _ (by omega) (by omega)]
    have he : 1 + ((((nz : ℤ) + ng - 1 : ℤ) : ℝ) - (ng : ℝ)) * (-2 / (nz : ℝ))
        = (2 - (nz : ℝ)) / (nz : ℝ) := by
      push_cast
      field_simp
      ring
    rw [he]
  have hlo : (-1 : ℝ) < (2 - (nz : ℝ)) / (nz : ℝ) := by
    rw [lt_div_iff₀ hz]
    nlinarith
  have hhi : (2 - (nz : ℝ)) / (nz : ℝ) ≤ 1 := by
    rw [div_le_one hz]
    nlinarith
  have hccos : Real.cos (Real.arccos ((2 - (nz : ℝ)) / (nz : ℝ)))
      = (2 - (nz : ℝ)) / (nz : ℝ) := Real.cos_arccos (le_of_lt hlo) hhi
  have hc0 : 0 ≤ Real.arccos ((2 - (nz : ℝ)) / (nz : ℝ)) := Real.arccos_nonneg _
  have hclt : Real.arccos ((2 - (nz : ℝ)) / (nz : ℝ)) < Real.pi := arccos_lt_pi_of_gt hlo
  have hcosgt : (-1 : ℝ) < Real.cos (Real.arccos ((2 - (nz : ℝ)) / (nz : ℝ))) := by
    rw [hccos]
    exact hlo
  have hy := mul_cos_lt_sin
    (show 0 < Real.pi - Real.arccos ((2 - (nz : ℝ)) / (nz : ℝ)) by linarith)
    (show Real.pi - Real.arccos ((2 - (nz : ℝ)) / (nz : ℝ)) ≤ Real.pi by linarith)
  rw [Real.cos_pi_sub, Real.sin_pi_sub] at hy
  unfold zetav
  rw [hf0, hf1]
  have hcos2 : Real.cos (2 * Real.pi - Real.arccos ((2 - (nz : ℝ)) / (nz : ℝ)))
      = Real.cos (Real.arccos ((2 - (nz : ℝ)) / (nz : ℝ))) := by
    rw [Real.cos_sub, Real.cos_two_pi, Real.sin_two_pi]
    ring
  have hsin2 : Real.sin (2 * Real.pi - Real.arccos ((2 - (nz : ℝ)) / (nz : ℝ)))
      = -Real.sin (Real.arccos ((2 - (nz : ℝ)) / (nz : ℝ))) := by
    rw [Real.sin_sub, Real.cos_two_pi, Real.sin_two_pi]
    ring
  rw [hcos2, hsin2, Real.cos_pi, Real.sin_pi]
  rw [lt_div_iff₀ (by linarith :
    (0 : ℝ) < Real.cos (Real.arccos ((2 - (nz : ℝ)) / (nz : ℝ))) - -1)]
  nlinarith [hy]

/-- The first ghost azimuthal center is negative. -/
lemma psiv_north_ghost_neg (np ng : ℕ) (hnp : 1 ≤ np) (hng : 1 ≤ ng) (hgp : ng ≤ np) :
    psiv np ng ((ng : ℤ) - 1) < 0 := by
  have hz : (0 : ℝ) < (np : ℝ) := by exact_mod_cast Nat.pos_of_ne_zero (by omega)
  have hz1 : (1 : ℝ) ≤ (np : ℝ) := by exact_mod_cast hnp
  have hpi := Real.pi_pos
  have hf1 : psif np ng (((ng : ℤ) - 1) + 1) = 0 := by
    have he : ((ng : ℤ) - 1) + 1 = (ng : ℤ) := by ring
    rw [he, psif_interior np ng ng le_rfl (by omega)]
    unfold psifI
    rw [if_pos rfl]
  have hf0 : psif np ng ((ng : ℤ) - 1) < 0 := by
    unfold psif psifI
    split_ifs with h1 h2 h3 h4 h5 <;> try (exfalso; omega)
    · linarith
    · push_cast
      have he : (np : ℝ) + ((ng : ℝ) - 1) - (ng : ℝ) = (np : ℝ) - 1 := by ring
      rw [he]
      have hlt : ((np : ℝ) - 1) * (2 * Real.pi / (np : ℝ)) < 2 * Real.pi := by
        have he2 : ((np : ℝ) - 1) * (2 * Real.pi / (np : ℝ))
            = (((np : ℝ) - 1) * (2 * Real.pi)) / (np : ℝ) := by ring
        rw [he2, div_lt_iff₀ hz]
        nlinarith
      linarith
  unfold psiv
  rw [hf1]
  linarith

/-- The last ghost azimuthal center exceeds 2π. -/
lemma psiv_south_ghost_gt_two_pi (np ng : ℕ) (hnp : 1 ≤ np) (hng : 1 ≤ ng) (hgp : ng ≤ np) :
    2 * Real.pi < psiv np ng ((np : ℤ) + ng) := by
  have hz : (0 : ℝ) < (np : ℝ) := by exact_mod_cast Nat.pos_of_ne_zero (by omega)
  have hpi := Real.pi_pos
  have hf0 : psif np ng ((np : ℤ) + ng) = 2 * Real.pi := by
    rw [psif_interior np ng _ (by omega) le_rfl]
    unfold psifI
    rw [if_neg (by omega), if_pos rfl]
  have hf1 : 2 * Real.pi < psif np ng (((np : ℤ) + ng) + 1) := by
    unfold psif psifI
    split_ifs with h1 h2 h3 h4 h5 <;> try (exfalso; omega)
    · linarith
    · have hd : (0 : ℝ) < 2 * Real.pi / (np : ℝ) := by positivity
      push_cast
      nlinarith
  unfold psiv
  rw [hf0]
  linarith

/-- For any recovered polar angle in `[0, π]`, the zeta bracket search
breaks strictly inside its scanned range `[zs-1, ze+1]`: never at the first
candidate and never by fall-through. -/
lemma zeta_scan_bounds (nz ng : ℕ) (hnz : 1 ≤ nz) (hng : 1 ≤ ng) (hgz : ng ≤ nz)
    (x : ℝ) (hx0 : 0 ≤ x) (hx1 : x ≤ Real.pi) :
    (ng : ℤ) ≤ scanBreak (zetav nz ng) x ((ng : ℤ) - 1) (nz + 2) ∧
    scanBreak (zetav nz ng) x ((ng : ℤ) - 1) (nz + 2) ≤ (nz : ℤ) + ng := by
  constructor
  · have hneg := zetav_north_ghost_neg nz ng hnz hng hgz
    have hnb : ¬ x < zetav nz ng ((ng : ℤ) - 1) := by linarith
    have h := scanBreak_ge_one (zetav nz ng) x (nz + 1) ((ng : ℤ) - 1) hnb
    have he : (nz : ℕ) + 1 + 1 = nz + 2 := by omega
    rw [he] at h
    omega
  · have hgt := zetav_south_ghost_gt_pi nz ng hnz hng hgz
    exact scanBreak_le_found (zetav nz ng) x (nz + 2) ((ng : ℤ) - 1) ((nz : ℤ) + ng)
      (by omega) (by push_cast; omega) (by linarith)

/-- For any recovered azimuthal angle in `[0, 2π)`, the psi bracket search
breaks strictly inside its scanned range `[ps-1, pe+1]`. -/
lemma psi_scan_bounds (np ng : ℕ) (hnp : 1 ≤ np) (hng : 1 ≤ ng) (hgp : ng ≤ np)
    (x : ℝ) (hx0 : 0 ≤ x) (hx1 : x < 2 * Real.pi) :
    (ng : ℤ) ≤ scanBreak (psiv np ng) x ((ng : ℤ) - 1) (np + 2) ∧
    scanBreak (psiv np ng) x ((ng : ℤ) - 1) (np + 2) ≤ (np : ℤ) + ng := by
  constructor
  · have hneg := psiv_north_ghost_neg np ng hnp hng hgp
    have hnb : ¬ x < psiv np ng ((ng : ℤ) - 1) := by linarith
    have h := scanBreak_ge_one (psiv np ng) x (np + 1) ((ng : ℤ) - 1) hnb
    have he : (np : ℕ) + 1 + 1 = np + 2 := by omega
    rw [he] at h
    omega
  · have hgt := psiv_south_ghost_gt_two_pi np ng hnp hng hgp
    exact scanBreak_le_found (psiv np ng) x (np + 2) ((ng : ℤ) - 1) ((np : ℤ) + ng)
      (by omega) (by push_cast; omega) (by linarith)

/-- `AngleInd` maps the padded bin ranges into `[0, nang)`. -/
lemma AngleInd_valid (nz np ng : ℕ) (l m : ℤ) (hl0 : 0 ≤ l)
    (hl1 : l ≤ (nz : ℤ) + 2 * ng - 1) (hm0 : 0 ≤ m) (hm1 : m ≤ (np : ℤ) + 2 * ng - 1) :
    0 ≤ AngleInd np ng l m ∧ AngleInd np ng l m < (nang nz np ng : ℤ) := by
  unfold AngleInd nang
  have hP : (0 : ℤ) ≤ (np : ℤ) + 2 * ng := by omega
  constructor
  · nlinarith [mul_nonneg hl0 hP]
  · push_cast
    nlinarith [mul_le_mul_of_nonneg_right hl1 hP]

/-! ## Concrete evaluation of the `nzeta = npsi = 4`, ghost-width-1 grid -/

lemma arccos_half : Real.arccos (1 / 2) = Real.pi / 3 := by
  rw [← Real.cos_pi_div_three]
  exact Real.arccos_cos (by positivity) (by linarith [Real.pi_pos])

lemma zetaf441_1 : zetaf 4 1 1 = 0 := by
  unfold zetaf zetafI
  rw [if_neg (by omega), if_neg (by omega), if_pos (by omega : (1 : ℤ) = ((1 : ℕ) : ℤ))]

lemma zetaf441_2 : zetaf 4 1 2 = Real.pi / 3 := by
  unfold zetaf zetafI
  rw [if_neg (by omega), if_neg (by omega), if_neg (by omega), if_neg (by omega),
    if_neg (by omega), if_pos (by omega)]
  rw [show 1 + (((2 : ℤ) : ℝ) - ((1 : ℕ) : ℝ)) * (-2 / ((4 : ℕ) : ℝ)) = 1 / 2 by
    push_cast; ring]
  exact arccos_half

lemma zetaf441_0 : zetaf 4 1 0 = -(Real.pi / 3) := by
  have h : zetaf 4 1 0 = -zetafI 4 1 2 := by
    unfold zetaf
    rw [if_pos (by omega)]
    norm_num
  have h2 : zetafI 4 1 2 = zetaf 4 1 2 := by
    unfold zetaf
    rw [if_neg (by omega), if_neg (by omega)]
  rw [h, h2, zetaf441_2]

lemma zetaf441_3 : zetaf 4 1 3 = Real.pi / 2 := by
  unfold zetaf zetafI
  rw [if_neg (by omega), if_neg (by omega), if_neg (by omega), if_neg (by omega),
    if_pos (by constructor <;> omega)]

lemma zetaf441_4 : zetaf 4 1 4 = Real.pi - Real.pi / 3 := by
  unfold zetaf zetafI
  rw [if_neg (by omega), if_neg (by omega), if_neg (by omega), if_neg (by omega),
    if_neg (by omega), if_neg (by omega)]
  rw [show 1 + ((((4 : ℕ) : ℝ) + 2 * ((1 : ℕ) : ℝ) - ((4 : ℤ) : ℝ)) - ((1 : ℕ) : ℝ))
      * (-2 / ((4 : ℕ) : ℝ)) = 1 / 2 by push_cast; ring]
  rw [arccos_half]

lemma zetaf441_5 : zetaf 4 1 5 = Real.pi := by
  unfold zetaf zetafI
  rw [if_neg (by omega), if_neg (by omega), if_neg (by omega), if_pos (by omega)]

lemma zetaf441_6 : zetaf 4 1 6 = 2 * Real.pi - (Real.pi - Real.pi / 3) := by
  have h : zetaf 4 1 6 = 2 * Real.pi - zetafI 4 1 4 := by
    unfold zetaf
    rw [if_neg (by omega), if_pos (by omega)]
    norm_num
  have h2 : zetafI 4 1 4 = zetaf 4 1 4 := by
    unfold zetaf
    rw [if_neg (by omega), if_neg (by omega)]
  rw [h, h2, zetaf441_4]

lemma zetav441_0 : zetav 4 1 0 = Real.pi / 3 - Real.sqrt 3 := by
  unfold zetav
  rw [show (0 : ℤ) + 1 = 1 by ring, zetaf441_1, zetaf441_0]
  rw [Real.cos_zero, Real.sin_zero, Real.cos_neg, Real.sin_neg,
    Real.cos_pi_div_three, Real.sin_pi_div_three]
  rw [div_eq_iff (by norm_num : (1 : ℝ) - 1 / 2 ≠ 0)]
  ring

lemma zetav441_1 : zetav 4 1 1 = Real.sqrt 3 - Real.pi / 3 := by
  unfold zetav
  rw [show (1 : ℤ) + 1 = 2 by ring, zetaf441_2, zetaf441_1]
  rw [Real.cos_zero, Real.sin_zero, Real.cos_pi_div_three, Real.sin_pi_div_three]
  rw [div_eq_iff (by norm_num : (1 : ℝ) / 2 - 1 ≠ 0)]
  ring

lemma zetav441_2 : zetav 4 1 2 = 2 + Real.pi / 3 - Real.sqrt 3 := by
  unfold zetav
  rw [show (2 : ℤ) + 1 = 3 by ring, zetaf441_3, zetaf441_2]
  rw [Real.cos_pi_div_two, Real.sin_pi_div_two, Real.cos_pi_div_three,
    Real.sin_pi_div_three]
  rw [div_eq_iff (by norm_num : (0 : ℝ) - 1 / 2 ≠ 0)]
  ring

lemma zetav441_3 : zetav 4 1 3 = 2 * Real.pi / 3 + Real.sqrt 3 - 2 := by
  unfold zetav
  rw [show (3 : ℤ) + 1 = 4 by ring, zetaf441_4, zetaf441_3]
  rw [Real.cos_pi_sub, Real.sin_pi_sub, Real.cos_pi_div_two, Real.sin_pi_div_two,
    Real.cos_pi_div_three, Real.sin_pi_div_three]
  rw [div_eq_iff (by norm_num : -(1 / 2 : ℝ) - 0 ≠ 0)]
  ring

lemma zetav441_4 : zetav 4 1 4 = 4 * Real.pi / 3 - Real.sqrt 3 := by
  unfold zetav
  rw [show (4 : ℤ) + 1 = 5 by ring, zetaf441_5, zetaf441_4]
  rw [Real.cos_pi_sub, Real.sin_pi_sub, Real.cos_pi, Real.sin_pi,
    Real.cos_pi_div_three, Real.sin_pi_div_three]
  rw [div_eq_iff (by norm_num : (-1 : ℝ) - -(1 / 2) ≠ 0)]
  ring

lemma dzetaf441_3 : dzetaf 4 1 3 = Real.pi / 6 := by
  unfold dzetaf
  rw [show (3 : ℤ) + 1 = 4 by ring, zetaf441_4, zetaf441_3]
  ring

lemma psif441_0 : psif 4 1 0 = -(Real.pi / 2) := by
  unfold psif psifI
  rw [if_pos (by omega)]
  rw [if_neg (by omega), if_neg (by omega)]
  push_cast
  ring

lemma psif441_1 : psif 4 1 1 = 0 := by
  unfold psif psifI
  rw [if_neg (by omega), if_neg (by omega), if_pos (by omega : (1 : ℤ) = ((1 : ℕ) : ℤ))]

lemma psif441_2 : psif 4 1 2 = Real.pi / 2 := by
  unfold psif psifI
  rw [if_neg (by omega), if_neg (by omega), if_neg (by omega), if_neg (by omega)]
  push_cast
  ring

lemma psif441_3 : psif 4 1 3 = Real.pi := by
  unfold psif psifI
  rw [if_neg (by omega), if_neg (by omega), if_neg (by omega), if_neg (by omega)]
  push_cast
  ring

lemma psif441_4 : psif 4 1 4 = 3 * Real.pi / 2 := by
  unfold psif psifI
  rw [if_neg (by omega), if_neg (by omega), if_neg (by omega), if_neg (by omega)]
  push_cast
  ring

lemma psiv441_0 : psiv 4 1 0 = -(Real.pi / 4) := by
  unfold psiv
  rw [show (0 : ℤ) + 1 = 1 by ring, psif441_0, psif441_1]
  ring

lemma psiv441_1 : psiv 4 1 1 = Real.pi / 4 := by
  unfold psiv
  rw [show (1 : ℤ) + 1 = 2 by ring, psif441_1, psif441_2]
  ring

lemma psiv441_2 : psiv 4 1 2 = 3 * Real.pi / 4 := by
  unfold psiv
  rw [show (2 : ℤ) + 1 = 3 by ring, psif441_2, psif441_3]
  ring

lemma psiv441_3 : psiv 4 1 3 = 5 * Real.pi / 4 := by
  unfold psiv
  rw [show (3 : ℤ) + 1 = 4 by ring, psif441_3, psif441_4]
  ring

lemma dpsif441_0 : dpsif 4 1 0 = Real.pi / 2 := by
  unfold dpsif
  rw [show (0 : ℤ) + 1 = 1 by ring, psif441_1, psif441_0]
  ring

lemma dpsif441_2 : dpsif 4 1 2 = Real.pi / 2 := by
  unfold dpsif
  rw [show (2 : ℤ) + 1 = 3 by ring, psif441_3, psif441_2]
  ring

lemma sqrt3_gt : (1.732 : ℝ) < Real.sqrt 3 :=
  (Real.lt_sqrt (by norm_num)).mpr (by norm_num)

lemma sqrt3_lt : Real.sqrt 3 < (1.7321 : ℝ) :=
  (Real.sqrt_lt' (by norm_num)).mpr (by norm_num)

/-! ## C6: no degeneracy detection before the arccos/atan2 step -/

lemma atan2_zero_zero : atan2 0 0 = 0 := by
  unfold atan2
  norm_num

lemma nhatA_zeroTet (na : Fin 4 → ℝ) (n : Fin 4) : nhatA zeroTet na n = 0 := by
  simp [nhatA, zeroTet]

lemma reflectPsi_zeroTet : reflectPsi 4 4 1 idTet zeroTet 1 1 1 = 0 := by
  unfold reflectPsi psiOf
  rw [nhatA_zeroTet, nhatA_zeroTet, atan2_zero_zero]
  norm_num

lemma psi_scan_zero : scanBreak (psiv 4 1) 0 0 6 = 1 := by
  have hpi := Real.pi_pos
  refine scanBreak_eq _ _ 6 0 1 (by norm_num) (by norm_num) ?_ ?_
  · intro i hi1 hi2
    have he : i = 0 := by omega
    rw [he, not_lt, psiv441_0]
    linarith
  · rw [psiv441_1]
    linarith

lemma reflectMa_zeroTet : reflectMa 4 4 1 idTet zeroTet 1 1 1 = 1 := by
  unfold reflectMa
  rw [reflectPsi_zeroTet]
  have he : ((1 : ℕ) : ℤ) - 1 = 0 := by norm_num
  rw [he]
  exact psi_scan_zero

/-! ## C2: a concrete emitted entry with a weight outside `[0, 1]` -/

lemma cex_sin_zv_pos : 0 < Real.sin (zetav 4 1 1) := by
  rw [zetav441_1]
  apply Real.sin_pos_of_pos_of_lt_pi
  · nlinarith [sqrt3_gt, Real.pi_lt_d2]
  · nlinarith [sqrt3_lt, Real.pi_gt_d6]

lemma cexU2_pos : 0 < cexU 2 := by
  show 0 < Real.sin (zetav 4 1 1) * Real.sin (psiv 4 1 1)
  apply mul_pos cex_sin_zv_pos
  rw [psiv441_1]
  exact Real.sin_pos_of_pos_of_lt_pi (by positivity) (by linarith [Real.pi_pos])

lemma cexUU : cexU 1 * cexU 1 + cexU 2 * cexU 2 + cexU 3 * cexU 3 = 1 := by
  show -(Real.sin (zetav 4 1 1) * Real.cos (psiv 4 1 1))
      * -(Real.sin (zetav 4 1 1) * Real.cos (psiv 4 1 1))
      + Real.sin (zetav 4 1 1) * Real.sin (psiv 4 1 1)
      * (Real.sin (zetav 4 1 1) * Real.sin (psiv 4 1 1))
      + Real.cos (zetav 4 1 1) * Real.cos (zetav 4 1 1) = 1
  have h1 := Real.sin_sq_add_cos_sq (zetav 4 1 1)
  have h2 := Real.sin_sq_add_cos_sq (psiv 4 1 1)
  nlinarith [h1, h2]

lemma cexVV : cexV 1 * cexV 1 + cexV 2 * cexV 2 + cexV 3 * cexV 3 = 1 := by
  show -Real.sin 2.4 * -Real.sin 2.4 + 0 * 0 + Real.cos 2.4 * Real.cos 2.4 = 1
  have h := Real.sin_sq_add_cos_sq (2.4 : ℝ)
  nlinarith [h]

lemma cexW2_eq : cexW 2 = cexU 2 := by
  show cexU 2 - cexV 2 = cexU 2
  have h : cexV 2 = 0 := rfl
  rw [h]
  ring

lemma cexWW_pos : 0 < cexWW := by
  unfold cexWW
  rw [cexW2_eq]
  nlinarith [mul_self_nonneg (cexW 1), mul_self_nonneg (cexW 3),
    mul_pos cexU2_pos cexU2_pos]

lemma cexWU : cexW 1 * cexU 1 + cexW 2 * cexU 2 + cexW 3 * cexU 3 = 1 - cexUV := by
  simp only [cexW, cexUV]
  linear_combination cexUU

lemma cexWWval : cexWW = 2 - 2 * cexUV := by
  unfold cexWW cexUV
  simp only [cexW]
  linear_combination cexUU + cexVV

lemma nVec_id_apply (nh : Fin 4 → ℝ) (n : Fin 4) : nVec idTet nh n = nh n := by
  unfold nVec idTet
  rw [Fin.sum_univ_four]
  fin_cases n <;> simp

lemma cexNa_0 : flipA 1 (nVec idTet (nhatG 4 4 1 1 1)) 0 = 1 := by
  unfold flipA
  rw [if_neg (by decide), nVec_id_apply]
  rfl

lemma cexNa_1 : flipA 1 (nVec idTet (nhatG 4 4 1 1 1)) 1 = cexU 1 := by
  unfold flipA
  rw [if_pos rfl, nVec_id_apply]
  rfl

lemma cexNa_2 : flipA 1 (nVec idTet (nhatG 4 4 1 1 1)) 2 = cexU 2 := by
  unfold flipA
  rw [if_neg (by decide), nVec_id_apply]
  rfl

lemma cexNa_3 : flipA 1 (nVec idTet (nhatG 4 4 1 1 1)) 3 = cexU 3 := by
  unfold flipA
  rw [if_neg (by decide), nVec_id_apply]
  rfl

lemma cexNhA_0 : nhatA cexEcova (flipA 1 (nVec idTet (nhatG 4 4 1 1 1))) 0 = -1 := by
  unfold nhatA
  rw [Fin.sum_univ_four, cexNa_0, cexNa_1, cexNa_2, cexNa_3]
  have e0 : cexEcova 0 0 = -1 := rfl
  have e1 : cexEcova 0 1 = 0 := rfl
  have e2 : cexEcova 0 2 = 0 := rfl
  have e3 : cexEcova 0 3 = 0 := rfl
  rw [e0, e1, e2, e3]
  ring

lemma cexNhA_1 : nhatA cexEcova (flipA 1 (nVec idTet (nhatG 4 4 1 1 1))) 1 = cexV 1 := by
  unfold nhatA
  rw [Fin.sum_univ_four, cexNa_0, cexNa_1, cexNa_2, cexNa_3]
  have e0 : cexEcova 1 0 = 0 := rfl
  have e1 : cexEcova 1 1 = 1 - 2 * cexW 1 * cexW 1 / cexWW := rfl
  have e2 : cexEcova 1 2 = 0 - 2 * cexW 1 * cexW 2 / cexWW := rfl
  have e3 : cexEcova 1 3 = 0 - 2 * cexW 1 * cexW 3 / cexWW := rfl
  rw [e0, e1, e2, e3]
  have hWne : cexWW ≠ 0 := ne_of_gt cexWW_pos
  have expand : (0 : ℝ) * 1 + (1 - 2 * cexW 1 * cexW 1 / cexWW) * cexU 1
      + (0 - 2 * cexW 1 * cexW 2 / cexWW) * cexU 2
      + (0 - 2 * cexW 1 * cexW 3 / cexWW) * cexU 3
      = cexU 1 - 2 * cexW 1 * (cexW 1 * cexU 1 + cexW 2 * cexU 2 + cexW 3 * cexU 3) / cexWW := by
    field_simp
    ring
  rw [expand, cexWU, cexWWval]
  have hpos : (0 : ℝ) < 2 - 2 * cexUV := by
    have h := cexWW_pos
    rw [cexWWval] at h
    exact h
  have hne2 : (2 : ℝ) - 2 * cexUV ≠ 0 := ne_of_gt hpos
  have hdiv : 2 * cexW 1 * (1 - cexUV) / (2 - 2 * cexUV) = cexW 1 := by
    field_simp
    ring
  rw [hdiv]
  show cexU 1 - (cexU 1 - cexV 1) = cexV 1
  ring

lemma cexNhA_2 : nhatA cexEcova (flipA 1 (nVec idTet (nhatG 4 4 1 1 1))) 2 = cexV 2 := by
  unfold nhatA
  rw [Fin.sum_univ_four, cexNa_0, cexNa_1, cexNa_2, cexNa_3]
  have e0 : cexEcova 2 0 = 0 := rfl
  have e1 : cexEcova 2 1 = 0 - 2 * cexW 2 * cexW 1 / cexWW := rfl
  have e2 : cexEcova 2 2 = 1 - 2 * cexW 2 * cexW 2 / cexWW := rfl
  have e3 : cexEcova 2 3 = 0 - 2 * cexW 2 * cexW 3 / cexWW := rfl
  rw [e0, e1, e2, e3]
  have hWne : cexWW ≠ 0 := ne_of_gt cexWW_pos
  have expand : (0 : ℝ) * 1 + (0 - 2 * cexW 2 * cexW 1 / cexWW) * cexU 1
      + (1 - 2 * cexW 2 * cexW 2 / cexWW) * cexU 2
      + (0 - 2 * cexW 2 * cexW 3 / cexWW) * cexU 3
      = cexU 2 - 2 * cexW 2 * (cexW 1 * cexU 1 + cexW 2 * cexU 2 + cexW 3 * cexU 3) / cexWW := by
    field_simp
    ring
  rw [expand, cexWU, cexWWval]
  have hpos : (0 : ℝ) < 2 - 2 * cexUV := by
    have h := cexWW_pos
    rw [cexWWval] at h
    exact h
  have hne2 : (2 : ℝ) - 2 * cexUV ≠ 0 := ne_of_gt hpos
  have hdiv : 2 * cexW 2 * (1 - cexUV) / (2 - 2 * cexUV) = cexW 2 := by
    field_simp
    ring
  rw [hdiv]
  show cexU 2 - (cexU 2 - cexV 2) = cexV 2
  ring

lemma cexNhA_3 : nhatA cexEcova (flipA 1 (nVec idTet (nhatG 4 4 1 1 1))) 3 = cexV 3 := by
  unfold nhatA
  rw [Fin.sum_univ_four, cexNa_0, cexNa_1, cexNa_2, cexNa_3]
  have e0 : cexEcova 3 0 = 0 := rfl
  have e1 : cexEcova 3 1 = 0 - 2 * cexW 3 * cexW 1 / cexWW := rfl
  have e2 : cexEcova 3 2 = 0 - 2 * cexW 3 * cexW 2 / cexWW := rfl
  have e3 : cexEcova 3 3 = 1 - 2 * cexW 3 * cexW 3 / cexWW := rfl
  rw [e0, e1, e2, e3]
  have hWne : cexWW ≠ 0 := ne_of_gt cexWW_pos
  have expand : (0 : ℝ) * 1 + (0 - 2 * cexW 3 * cexW 1 / cexWW) * cexU 1
      + (0 - 2 * cexW 3 * cexW 2 / cexWW) * cexU 2
      + (1 - 2 * cexW 3 * cexW 3 / cexWW) * cexU 3
      = cexU 3 - 2 * cexW 3 * (cexW 1 * cexU 1 + cexW 2 * cexU 2 + cexW 3 * cexU 3) / cexWW := by
    field_simp
    ring
  rw [expand, cexWU, cexWWval]
  have hpos : (0 : ℝ) < 2 - 2 * cexUV := by
    have h := cexWW_pos
    rw [cexWWval] at h
    exact h
  have hne2 : (2 : ℝ) - 2 * cexUV ≠ 0 := ne_of_gt hpos
  have hdiv : 2 * cexW 3 * (1 - cexUV) / (2 - 2 * cexUV) = cexW 3 := by
    field_simp
    ring
  rw [hdiv]
  show cexU 3 - (cexU 3 - cexV 3) = cexV 3
  ring

lemma cexZeta : reflectZeta 4 4 1 idTet cexEcova 1 1 1 = 2.4 := by
  unfold reflectZeta zetaOf
  rw [cexNhA_3, cexNhA_0]
  have hv3 : cexV 3 = Real.cos 2.4 := rfl
  rw [hv3]
  rw [show Real.cos 2.4 / -(-1 : ℝ) = Real.cos 2.4 by norm_num]
  exact Real.arccos_cos (by norm_num) (by nlinarith [Real.pi_gt_d6])

lemma cexPsi : reflectPsi 4 4 1 idTet cexEcova 1 1 1 = Real.pi := by
  unfold reflectPsi psiOf
  rw [cexNhA_2, cexNhA_1]
  have hv2 : cexV 2 = 0 := rfl
  have hv1 : cexV 1 = -Real.sin 2.4 := rfl
  rw [hv2, hv1]
  have hsin : 0 < Real.sin 2.4 :=
    Real.sin_pos_of_pos_of_lt_pi (by norm_num) (by nlinarith [Real.pi_gt_d6])
  have hat : atan2 0 (-Real.sin 2.4) = Real.pi := by
    unfold atan2
    rw [if_neg (by linarith), if_pos ⟨by linarith, le_refl (0 : ℝ)⟩]
    rw [zero_div, Real.arctan_zero, zero_add]
  rw [hat, if_neg (by linarith [Real.pi_pos])]

lemma zeta_scan_24 : scanBreak (zetav 4 1) 2.4 0 6 = 4 := by
  have hpi6 := Real.pi_gt_d6
  have hpi2 := Real.pi_lt_d2
  have hs3g := sqrt3_gt
  have hs3l := sqrt3_lt
  refine scanBreak_eq _ _ 6 0 4 (by norm_num) (by norm_num) ?_ ?_
  · intro i hi1 hi2
    rw [not_lt]
    interval_cases i
    · rw [zetav441_0]
      nlinarith
    · rw [zetav441_1]
      nlinarith
    · rw [zetav441_2]
      nlinarith
    · rw [zetav441_3]
      nlinarith
  · rw [zetav441_4]
    nlinarith

lemma psi_scan_pi : scanBreak (psiv 4 1) Real.pi 0 6 = 3 := by
  have hpi := Real.pi_pos
  refine scanBreak_eq _ _ 6 0 3 (by norm_num) (by norm_num) ?_ ?_
  · intro i hi1 hi2
    rw [not_lt]
    interval_cases i
    · rw [psiv441_0]
      linarith
    · rw [psiv441_1]
      linarith
    · rw [psiv441_2]
      linarith
  · rw [psiv441_3]
    linarith

lemma cexLa : reflectLa 4 4 1 idTet cexEcova 1 1 1 = 4 := by
  unfold reflectLa
  rw [cexZeta, show ((1 : ℕ) : ℤ) - 1 = 0 by norm_num]
  exact zeta_scan_24

lemma cexMa : reflectMa 4 4 1 idTet cexEcova 1 1 1 = 3 := by
  unfold reflectMa
  rw [cexPsi, show ((1 : ℕ) : ℤ) - 1 = 0 by norm_num]
  exact psi_scan_pi

/-- C2 counterexample: an emitted inner-x¹ reflection entry whose first
bilinear weight is negative.  The input is a concrete valid configuration
(`nzeta = npsi = 4`, ghost width 1, source bin `(1,1)`) with an identity
tetrad at the ghost point and an orthonormal flat dual tetrad (Minkowski
time row, spatial Householder reflection) at the mirror point; the
transformed direction recovers `ζ_a = 2.4`, which lies in the zeta bin
`(zetav(3), zetav(4))` whose center gap `4π/3 - √3 - (2π/3 + √3 - 2)`
exceeds the face spacing `dzetaf(3) = π/6`, so `frac_l > 1` and
`(1-frac_l)(1-frac_m) < 0`. -/
theorem C2_weight_outside_unit_interval :
    (reflectEntry 4 4 1 idTet cexEcova 1 1 1).frac0 < 0 := by
  have hpi6 := Real.pi_gt_d6
  have hpi2 := Real.pi_lt_d2
  have hs3g := sqrt3_gt
  have hs3l := sqrt3_lt
  have hfl : 1 < reflectFracL 4 4 1 idTet cexEcova 1 1 1 := by
    unfold reflectFracL
    rw [cexZeta, cexLa, show (4 : ℤ) - 1 = 3 by norm_num, zetav441_3, dzetaf441_3]
    rw [one_lt_div (by positivity)]
    nlinarith
  have hfm : reflectFracM 4 4 1 idTet cexEcova 1 1 1 = 1 / 2 := by
    unfold reflectFracM
    rw [cexPsi, cexMa, show (3 : ℤ) - 1 = 2 by norm_num, psiv441_2, dpsif441_2]
    rw [div_eq_iff (by positivity)]
    ring
  show (1 - reflectFracL 4 4 1 idTet cexEcova 1 1 1)
      * (1 - reflectFracM 4 4 1 idTet cexEcova 1 1 1) < 0
  rw [hfm]
  nlinarith [hfl]

/-! ## C5 and C6 under the IEEE-faithful angle recovery -/

lemma nhatA_idTet (na : Fin 4 → ℝ) (n : Fin 4) : nhatA idTet na n = na n := by
  unfold nhatA idTet
  rw [Fin.sum_univ_four]
  fin_cases n <;> simp

/-- C5 (amended, in-domain part): the code raises no error anywhere; for
every valid configuration and any tetrad inputs whose transformed quotient
`nh_a[3]/nh_a[0]` is well-defined and lies in `[-1, 1]` (the domain of
`std::acos`), the IEEE-faithful bracket search agrees with the real-valued
one, both searches break inside their bounded scanned ranges, and all four
stored target bin indices are valid bins of the padded grid. -/
theorem C5_no_error_in_domain (nz np ng : ℕ) (hnz : 1 ≤ nz) (hnp : 1 ≤ np)
    (hng : 1 ≤ ng) (hgz : ng ≤ nz) (hgp : ng ≤ np)
    (eg ecova : Fin 4 → Fin 4 → ℝ) (ax : Fin 4) (l m : ℤ)
    (hq0 : -nhatA ecova (flipA ax (nVec eg (nhatG nz np ng l m))) 0 ≠ 0)
    (hq : -1 ≤ nhatA ecova (flipA ax (nVec eg (nhatG nz np ng l m))) 3
        / -nhatA ecova (flipA ax (nVec eg (nhatG nz np ng l m))) 0 ∧
      nhatA ecova (flipA ax (nVec eg (nhatG nz np ng l m))) 3
        / -nhatA ecova (flipA ax (nVec eg (nhatG nz np ng l m))) 0 ≤ 1) :
    reflectLaC nz np ng eg ecova ax l m = reflectLa nz np ng eg ecova ax l m ∧
    ((ng : ℤ) ≤ reflectLaC nz np ng eg ecova ax l m ∧
      reflectLaC nz np ng eg ecova ax l m ≤ (nz : ℤ) + ng) ∧
    ((ng : ℤ) ≤ reflectMa nz np ng eg ecova ax l m ∧
      reflectMa nz np ng eg ecova ax l m ≤ (np : ℤ) + ng) ∧
    (0 ≤ AngleInd np ng (reflectLaC nz np ng eg ecova ax l m - 1)
        (reflectMa nz np ng eg ecova ax l m - 1) ∧
      AngleInd np ng (reflectLaC nz np ng eg ecova ax l m - 1)
        (reflectMa nz np ng eg ecova ax l m - 1) < (nang nz np ng : ℤ)) ∧
    (0 ≤ AngleInd np ng (reflectLaC nz np ng eg ecova ax l m - 1)
        (reflectMa nz np ng eg ecova ax l m) ∧
      AngleInd np ng (reflectLaC nz np ng eg ecova ax l m - 1)
        (reflectMa nz np ng eg ecova ax l m) < (nang nz np ng : ℤ)) ∧
    (0 ≤ AngleInd np ng (reflectLaC nz np ng eg ecova ax l m)
        (reflectMa nz np ng eg ecova ax l m - 1) ∧
      AngleInd np ng (reflectLaC nz np ng eg ecova ax l m)
        (reflectMa nz np ng eg ecova ax l m - 1) < (nang nz np ng : ℤ)) ∧
    (0 ≤ AngleInd np ng (reflectLaC nz np ng eg ecova ax l m)
        (reflectMa nz np ng eg ecova ax l m) ∧
      AngleInd np ng (reflectLaC nz np ng eg ecova ax l m)
        (reflectMa nz np ng eg ecova ax l m) < (nang nz np ng : ℤ)) := by
  have hagree : reflectLaC nz np ng eg ecova ax l m = reflectLa nz np ng eg ecova ax l m := by
    unfold reflectLaC reflectZetaC zetaOfC reflectLa reflectZeta zetaOf
    rw [if_neg hq0, if_pos hq]
    rfl
  have hz := zeta_scan_bounds nz ng hnz hng hgz (reflectZeta nz np ng eg ecova ax l m)
    (Real.arccos_nonneg _) (Real.arccos_le_pi _)
  have hp := psi_scan_bounds np ng hnp hng hgp (reflectPsi nz np ng eg ecova ax l m)
    (psiOf_nonneg _) (psiOf_lt_two_pi _)
  have hla : (ng : ℤ) ≤ reflectLaC nz np ng eg ecova ax l m ∧
      reflectLaC nz np ng eg ecova ax l m ≤ (nz : ℤ) + ng := by
    rw [hagree]
    exact hz
  have hma : (ng : ℤ) ≤ reflectMa nz np ng eg ecova ax l m ∧
      reflectMa nz np ng eg ecova ax l m ≤ (np : ℤ) + ng := hp
  refine ⟨hagree, hla, hma, ?_, ?_, ?_, ?_⟩ <;>
    exact AngleInd_valid nz np ng _ _ (by omega) (by omega) (by omega) (by omega)

/-- Witness for the amended C5 at `nzeta = npsi = 4`, ghost width 1,
identity tetrads, inner-x¹ flip, source bin `(1,1)`: the quotient there is
`-cos(zetav(1)) ∈ [-1, 1]`. -/
theorem C5_no_error_in_domain_witness :
    reflectLaC 4 4 1 idTet idTet 1 1 1 = reflectLa 4 4 1 idTet idTet 1 1 1 ∧
    ((1 : ℤ) ≤ reflectLaC 4 4 1 idTet idTet 1 1 1 ∧
      reflectLaC 4 4 1 idTet idTet 1 1 1 ≤ 5) ∧
    ((1 : ℤ) ≤ reflectMa 4 4 1 idTet idTet 1 1 1 ∧
      reflectMa 4 4 1 idTet idTet 1 1 1 ≤ 5) ∧
    (0 ≤ AngleInd 4 1 (reflectLaC 4 4 1 idTet idTet 1 1 1 - 1)
        (reflectMa 4 4 1 idTet idTet 1 1 1 - 1) ∧
      AngleInd 4 1 (reflectLaC 4 4 1 idTet idTet 1 1 1 - 1)
        (reflectMa 4 4 1 idTet idTet 1 1 1 - 1) < 36) ∧
    (0 ≤ AngleInd 4 1 (reflectLaC 4 4 1 idTet idTet 1 1 1 - 1)
        (reflectMa 4 4 1 idTet idTet 1 1 1) ∧
      AngleInd 4 1 (reflectLaC 4 4 1 idTet idTet 1 1 1 - 1)
        (reflectMa 4 4 1 idTet idTet 1 1 1) < 36) ∧
    (0 ≤ AngleInd 4 1 (reflectLaC 4 4 1 idTet idTet 1 1 1)
        (reflectMa 4 4 1 idTet idTet 1 1 1 - 1) ∧
      AngleInd 4 1 (reflectLaC 4 4 1 idTet idTet 1 1 1)
        (reflectMa 4 4 1 idTet idTet 1 1 1 - 1) < 36) ∧
    (0 ≤ AngleInd 4 1 (reflectLaC 4 4 1 idTet idTet 1 1 1)
        (reflectMa 4 4 1 idTet idTet 1 1 1) ∧
      AngleInd 4 1 (reflectLaC 4 4 1 idTet idTet 1 1 1)
        (reflectMa 4 4 1 idTet idTet 1 1 1) < 36) := by
  have h0 : nhatA idTet (flipA 1 (nVec idTet (nhatG 4 4 1 1 1))) 0 = 1 := by
    rw [nhatA_idTet, cexNa_0]
  have h3 : nhatA idTet (flipA 1 (nVec idTet (nhatG 4 4 1 1 1))) 3
      = Real.cos (zetav 4 1 1) := by
    rw [nhatA_idTet, cexNa_3]
    rfl
  have hcos1 := Real.cos_le_one (zetav 4 1 1)
  have hcos2 := Real.neg_one_le_cos (zetav 4 1 1)
  have h := C5_no_error_in_domain 4 4 1 (by norm_num) (by norm_num) (by norm_num)
    (by norm_num) (by norm_num) idTet idTet 1 1 1
    (by rw [h0]; norm_num)
    (by
      rw [h0, h3]
      constructor <;> · rw [div_neg, div_one]; linarith)
  exact_mod_cast h

lemma cexC5_nh0 : nhatA cexC5ecova (flipA 1 (nVec idTet (nhatG 4 4 1 1 1))) 0 = -1 := by
  unfold nhatA
  rw [Fin.sum_univ_four, cexNa_0, cexNa_1, cexNa_2, cexNa_3]
  have e0 : cexC5ecova 0 0 = -1 := rfl
  have e1 : cexC5ecova 0 1 = 0 := rfl
  have e2 : cexC5ecova 0 2 = 0 := rfl
  have e3 : cexC5ecova 0 3 = 0 := rfl
  rw [e0, e1, e2, e3]
  ring

lemma cexC5_nh1 : nhatA cexC5ecova (flipA 1 (nVec idTet (nhatG 4 4 1 1 1))) 1 = 0 := by
  unfold nhatA
  rw [Fin.sum_univ_four, cexNa_0, cexNa_1, cexNa_2, cexNa_3]
  have e0 : cexC5ecova 1 0 = 0 := rfl
  have e1 : cexC5ecova 1 1 = 0 := rfl
  have e2 : cexC5ecova 1 2 = 0 := rfl
  have e3 : cexC5ecova 1 3 = 0 := rfl
  rw [e0, e1, e2, e3]
  ring

lemma cexC5_nh2 : nhatA cexC5ecova (flipA 1 (nVec idTet (nhatG 4 4 1 1 1))) 2 = 0 := by
  unfold nhatA
  rw [Fin.sum_univ_four, cexNa_0, cexNa_1, cexNa_2, cexNa_3]
  have e0 : cexC5ecova 2 0 = 0 := rfl
  have e1 : cexC5ecova 2 1 = 0 := rfl
  have e2 : cexC5ecova 2 2 = 0 := rfl
  have e3 : cexC5ecova 2 3 = 0 := rfl
  rw [e0, e1, e2, e3]
  ring

lemma cexC5_nh3 : nhatA cexC5ecova (flipA 1 (nVec idTet (nhatG 4 4 1 1 1))) 3 = 2 := by
  unfold nhatA
  rw [Fin.sum_univ_four, cexNa_0, cexNa_1, cexNa_2, cexNa_3]
  have e0 : cexC5ecova 3 0 = 2 := rfl
  have e1 : cexC5ecova 3 1 = 0 := rfl
  have e2 : cexC5ecova 3 2 = 0 := rfl
  have e3 : cexC5ecova 3 3 = 0 := rfl
  rw [e0, e1, e2, e3]
  ring

lemma cexC5_zetaC : reflectZetaC 4 4 1 idTet cexC5ecova 1 1 1 = none := by
  unfold reflectZetaC zetaOfC
  rw [cexC5_nh0, cexC5_nh3]
  norm_num

lemma cexC5_psi : reflectPsi 4 4 1 idTet cexC5ecova 1 1 1 = 0 := by
  unfold reflectPsi psiOf
  rw [cexC5_nh2, cexC5_nh1, atan2_zero_zero]
  norm_num

lemma cexC5_Ma : reflectMa 4 4 1 idTet cexC5ecova 1 1 1 = 1 := by
  unfold reflectMa
  rw [cexC5_psi, show ((1 : ℕ) : ℤ) - 1 = 0 by norm_num]
  exact psi_scan_zero

lemma cexC5_LaC : reflectLaC 4 4 1 idTet cexC5ecova 1 1 1 = 6 := by
  unfold reflectLaC
  rw [cexC5_zetaC]
  simp only [scanBreakC]
  norm_num

/-- C5 counterexample: at a concrete input whose transformed quotient
`nh_a[3]/nh_a[0] = 2` leaves the domain of `std::acos` (as an
un-normalized tetrad can produce), the recovered polar angle is NaN, every
loop comparison is false, the zeta bracket search silently exhausts its
scanned range `[zs-1, ze+1]` and falls through with `l_a = ze+2 = 6`, and
the entry stores `AngleInd(6, 1) = 37 ≥ nang = 36` — a target bin index
outside the padded grid, with no error raised (the code contains no error
statement). -/
theorem C5_counterexample :
    reflectZetaC 4 4 1 idTet cexC5ecova 1 1 1 = none ∧
    reflectLaC 4 4 1 idTet cexC5ecova 1 1 1 = 6 ∧
    AngleInd 4 1 (reflectLaC 4 4 1 idTet cexC5ecova 1 1 1)
      (reflectMa 4 4 1 idTet cexC5ecova 1 1 1) = 37 ∧
    ¬ AngleInd 4 1 (reflectLaC 4 4 1 idTet cexC5ecova 1 1 1)
      (reflectMa 4 4 1 idTet cexC5ecova 1 1 1) < ((nang 4 4 1 : ℕ) : ℤ) := by
  refine ⟨cexC5_zetaC, cexC5_LaC, ?_, ?_⟩
  · rw [cexC5_LaC, cexC5_Ma]
    unfold AngleInd
    norm_num
  · rw [cexC5_LaC, cexC5_Ma]
    unfold AngleInd nang
    norm_num

lemma zetaOfC_zeroTet :
    zetaOfC (nhatA zeroTet (flipA 1 (nVec idTet (nhatG 4 4 1 1 1)))) = none := by
  unfold zetaOfC
  rw [if_pos (by rw [nhatA_zeroTet]; norm_num)]

lemma reflectLaC_zeroTet : reflectLaC 4 4 1 idTet zeroTet 1 1 1 = 6 := by
  unfold reflectLaC reflectZetaC
  rw [zetaOfC_zeroTet]
  simp only [scanBreakC]
  norm_num

/-- C6 counterexample: at a concrete input whose transformed direction has
time-like component `nh_a[0]` exactly 0, no error is raised and no
degenerate case is detected: the quotient `nh_a[3]/nh_a[0]` is NaN (0/0 in
C++), so `zeta_a` is NaN, the zeta bracket loop silently exhausts
(`l_a = ze+2 = 6`) while `psi_a = atan2(0,0) = 0` still brackets normally
(`m_a = 1`), and the emitted entry stores target bins 30, 31, 36, 37 —
the last two outside the padded grid (`nang = 36`) — with NaN weights. -/
theorem C6_counterexample :
    nhatA zeroTet (flipA 1 (nVec idTet (nhatG 4 4 1 1 1))) 0 = 0 ∧
    zetaOfC (nhatA zeroTet (flipA 1 (nVec idTet (nhatG 4 4 1 1 1)))) = none ∧
    reflectLaC 4 4 1 idTet zeroTet 1 1 1 = 6 ∧
    AngleInd 4 1 (reflectLaC 4 4 1 idTet zeroTet 1 1 1 - 1)
      (reflectMa 4 4 1 idTet zeroTet 1 1 1 - 1) = 30 ∧
    AngleInd 4 1 (reflectLaC 4 4 1 idTet zeroTet 1 1 1)
      (reflectMa 4 4 1 idTet zeroTet 1 1 1) = 37 ∧
    ¬ AngleInd 4 1 (reflectLaC 4 4 1 idTet zeroTet 1 1 1)
      (reflectMa 4 4 1 idTet zeroTet 1 1 1) < ((nang 4 4 1 : ℕ) : ℤ) := by
  refine ⟨nhatA_zeroTet _ _, zetaOfC_zeroTet, reflectLaC_zeroTet, ?_, ?_, ?_⟩
  · rw [reflectLaC_zeroTet, reflectMa_zeroTet]
    unfold AngleInd
    norm_num
  · rw [reflectLaC_zeroTet, reflectMa_zeroTet]
    unfold AngleInd
    norm_num
  · rw [reflectLaC_zeroTet, reflectMa_zeroTet]
    unfold AngleInd nang
    norm_num

/-- C6 (amended): the builder performs no degeneracy check and raises no
error — when the transformed direction's time-like component is exactly
zero, the quotient and the arccos/atan2 step are computed unconditionally;
the resulting NaN polar angle makes every bracket comparison false, so the
zeta loop silently exhausts its scanned range and falls through with
`l_a = ze+2`, one past its bound (at ghost width 1 the stored bins
`AngleInd(ze+2, ·)` then lie outside the padded grid, with NaN
weights). -/
theorem C6_degenerate_not_detected (nz np ng : ℕ)
    (eg ecova : Fin 4 → Fin 4 → ℝ) (ax : Fin 4) (l m : ℤ)
    (hdeg : nhatA ecova (flipA ax (nVec eg (nhatG nz np ng l m))) 0 = 0) :
    reflectZetaC nz np ng eg ecova ax l m = none ∧
    reflectLaC nz np ng eg ecova ax l m = (nz : ℤ) + ng + 1 := by
  have hnone : reflectZetaC nz np ng eg ecova ax l m = none := by
    unfold reflectZetaC zetaOfC
    rw [if_pos (by rw [hdeg]; norm_num)]
  refine ⟨hnone, ?_⟩
  unfold reflectLaC
  rw [hnone]
  simp only [scanBreakC]
  push_cast
  ring

/-- Witness for the amended C6 at the concrete degenerate input (zero dual
tetrad): the loop exhausts at `l_a = ze+2 = 6`. -/
theorem C6_degenerate_not_detected_witness :
    reflectZetaC 4 4 1 idTet zeroTet 1 1 1 = none ∧
    reflectLaC 4 4 1 idTet zeroTet 1 1 1 = 6 := by
  have h := C6_degenerate_not_detected 4 4 1 idTet zeroTet 1 1 1 (nhatA_zeroTet _ _)
  exact ⟨h.1, by exact_mod_cast h.2⟩
